import Mathlib

/-!
# Skinned-mesh pipeline of `main.cpp` (Zappy3DModel)

A shallow embedding of the load-time flattener (`get_skinned_vertex`,
`process_skinned_mesh`), the per-frame skinning pass (`matrix_add`,
`draw_mesh`) and the animation clock (`timer`), followed by theorems about
them.

Conventions of the embedding

* Reals read from the scene (`ufbx_real`: positions, normals, matrices, source
  weights, times) are finite and are modelled as exact rationals; rounding is
  not modelled and the casts between `double` and `float` are the identity.
* A value computed with a division may be non-finite (NaN or an infinity):
  such values have type `Flt`, whose constructor `nonfinite` stands for any of
  them.  Sums and products with a non-finite operand are non-finite.
* C arrays are lists; an access outside the array is undefined behaviour in
  the source and is the fault `out_of_bounds` here.  A failed `assert` is the
  fault `assert_failed`.
* Unsigned machine integers are natural numbers; sizes stay far below the
  wrap-around range.
-/

namespace Zappy

/-! ## Faults, loops and array accesses -/

/-- The ways a run of the source stops without a result. -/
inductive Fault where
  | out_of_bounds
  | assert_failed
  deriving DecidableEq, Repr

/-- Read `xs[i]`. -/
def rd {α : Type} (xs : List α) (i : Nat) : Except Fault α :=
  match xs[i]? with
  | some x => Except.ok x
  | none => Except.error Fault.out_of_bounds

/-- Store `xs[i] = x`. -/
def wr {α : Type} (xs : List α) (i : Nat) (x : α) : Except Fault (List α) :=
  if i < xs.length then Except.ok (xs.set i x) else Except.error Fault.out_of_bounds

/-- The loop `for (size_t i = 0; i < n; i++) body`, over the state `σ`. -/
def forLoop {σ : Type} (n : Nat) (body : Nat → σ → Except Fault σ) (init : σ) :
    Except Fault σ :=
  (List.range n).foldlM (fun s i => body i s) init

/-- The C `assert`. -/
def c_assert (b : Bool) : Except Fault Unit :=
  if b then Except.ok () else Except.error Fault.assert_failed

/-! ## Numbers -/

/-- A computed floating-point value: a finite one, or a non-finite one. -/
inductive Flt where
  | fin (q : ℚ)
  | nonfinite
  deriving DecidableEq

namespace Flt

instance : Coe ℚ Flt := ⟨Flt.fin⟩
instance : One Flt := ⟨Flt.fin 1⟩
instance : Inhabited Flt := ⟨Flt.fin 0⟩

/-- Addition; a non-finite operand gives a non-finite sum. -/
def add : Flt → Flt → Flt
  | fin a, fin b => fin (a + b)
  | _, _ => nonfinite

/-- Multiplication; a non-finite operand gives a non-finite product. -/
def mul : Flt → Flt → Flt
  | fin a, fin b => fin (a * b)
  | _, _ => nonfinite

/-- Division by a finite value: dividing by zero gives a non-finite value. -/
def divq : Flt → ℚ → Flt
  | fin a, b => if b = 0 then nonfinite else fin (a / b)
  | nonfinite, _ => nonfinite

instance : Zero Flt := ⟨Flt.fin 0⟩
instance : Add Flt := ⟨Flt.add⟩
instance : Mul Flt := ⟨Flt.mul⟩

/-- Sums of computed values: addition is associative and commutative with unit 0. -/
instance : AddCommMonoid Flt where
  add := (· + ·)
  zero := 0
  nsmul := nsmulRec
  add_assoc a b c := by
    cases a <;> cases b <;> cases c <;> first | rfl | exact congrArg Flt.fin (add_assoc _ _ _)
  zero_add a := by
    cases a <;> first | rfl | exact congrArg Flt.fin (zero_add _)
  add_zero a := by
    cases a <;> first | rfl | exact congrArg Flt.fin (add_zero _)
  add_comm a b := by
    cases a <;> cases b <;> first | rfl | exact congrArg Flt.fin (add_comm _ _)

end Flt

/-! ## The data model -/

/-- The `#define MAX_WEIGHTS 4`. -/
abbrev MAX_WEIGHTS : Nat := 4

/-- The `#define TIMER_MS 16`. -/
def TIMER_MS : ℚ := 16

/-- A `ufbx_vec3` with coordinates in `R`. -/
structure ufbx_vec3 (R : Type) where
  x : R
  y : R
  z : R
  deriving DecidableEq

/-- A `ufbx_vec2` with coordinates in `R`. -/
structure ufbx_vec2 (R : Type) where
  x : R
  y : R
  deriving DecidableEq

/-- A `ufbx_matrix`: an affine 3x4 matrix, stored by columns; `mRC` is the entry
of row `R` and column `C`, and column 3 is the translation. -/
structure ufbx_matrix (R : Type) where
  m00 : R
  m10 : R
  m20 : R
  m01 : R
  m11 : R
  m21 : R
  m02 : R
  m12 : R
  m22 : R
  m03 : R
  m13 : R
  m23 : R
  deriving DecidableEq

/-- The view `v[12]` of a `ufbx_matrix` (the same storage as `m00 .. m23`). -/
def ufbx_matrix.v {R : Type} (m : ufbx_matrix R) : Fin 12 → R
  | 0 => m.m00
  | 1 => m.m10
  | 2 => m.m20
  | 3 => m.m01
  | 4 => m.m11
  | 5 => m.m21
  | 6 => m.m02
  | 7 => m.m12
  | 8 => m.m22
  | 9 => m.m03
  | 10 => m.m13
  | 11 => m.m23

/-- The matrix whose view `v[12]` is `f`. -/
def ufbx_matrix.ofFn {R : Type} (f : Fin 12 → R) : ufbx_matrix R :=
  ⟨f 0, f 1, f 2, f 3, f 4, f 5, f 6, f 7, f 8, f 9, f 10, f 11⟩

/-- The fixed-size array `T a[MAX_WEIGHTS]`. -/
abbrev Slots (α : Type) : Type := Fin MAX_WEIGHTS → α

/-- Read `a[i]` of a `MAX_WEIGHTS`-element array. -/
def rd4 {α : Type} (a : Slots α) (i : Nat) : Except Fault α :=
  if h : i < MAX_WEIGHTS then Except.ok (a ⟨i, h⟩) else Except.error Fault.out_of_bounds

/-- Store `a[i] = x` in a `MAX_WEIGHTS`-element array. -/
def wr4 {α : Type} (a : Slots α) (i : Nat) (x : α) : Except Fault (Slots α) :=
  if i < MAX_WEIGHTS then Except.ok (fun j => if j.val = i then x else a j)
  else Except.error Fault.out_of_bounds

/-- The `struct Vertex`. -/
structure Vertex where
  position : ufbx_vec3 ℚ
  normal : ufbx_vec3 ℚ
  texCoord : ufbx_vec2 ℚ
  weights : Slots Flt
  bones : Slots Nat

/-- The `struct Bone`. -/
structure Bone where
  node_index : Nat
  geometry_to_bone : ufbx_matrix ℚ
  rest_pose : ufbx_matrix ℚ

/-- The `struct Mesh`: two buffers and their element counts. -/
structure Mesh where
  bones : List Bone
  num_bones : Nat
  vertices : List Vertex
  num_vertices : Nat

/-- A zero-initialised matrix (`= { 0 }`, `calloc`). -/
def ufbx_matrix.zero (R : Type) [Zero R] : ufbx_matrix R := ufbx_matrix.ofFn (fun _ => 0)

/-- A zero-initialised `Vertex` (`Vertex v = { 0 }`, `calloc`). -/
def Vertex.zero : Vertex :=
  { position := ⟨0, 0, 0⟩, normal := ⟨0, 0, 0⟩, texCoord := ⟨0, 0⟩,
    weights := fun _ => 0, bones := fun _ => 0 }

/-- A zero-initialised `Bone` (`calloc`). -/
def Bone.zero : Bone :=
  { node_index := 0, geometry_to_bone := ufbx_matrix.zero ℚ, rest_pose := ufbx_matrix.zero ℚ }

/-! ### The scene types of `ufbx.h` that the program reads -/

/-- The fields of `ufbx_node` that are read. -/
structure ufbx_node where
  typed_id : Nat
  node_to_world : ufbx_matrix ℚ

/-- The field of `ufbx_scene` that `draw_mesh` reads. -/
structure ufbx_scene where
  nodes : List ufbx_node

/-- A `ufbx_skin_vertex`: where the influences of a raw vertex are stored. -/
structure ufbx_skin_vertex where
  weight_begin : Nat
  num_weights : Nat

/-- A `ufbx_skin_weight`: one influence. -/
structure ufbx_skin_weight where
  cluster_index : Nat
  weight : ℚ

/-- The fields of `ufbx_skin_cluster` that are read. -/
structure ufbx_skin_cluster where
  bone_node : ufbx_node
  geometry_to_bone : ufbx_matrix ℚ

/-- The fields of `ufbx_skin_deformer` that are read. -/
structure ufbx_skin_deformer where
  clusters : List ufbx_skin_cluster
  vertices : List ufbx_skin_vertex
  weights : List ufbx_skin_weight

/-- A `ufbx_vertex_vec3` attribute: values, and for each corner the value it uses. -/
structure ufbx_vertex_vec3 where
  values : List (ufbx_vec3 ℚ)
  indices : List Nat

/-- A `ufbx_vertex_vec2` attribute. -/
structure ufbx_vertex_vec2 where
  values : List (ufbx_vec2 ℚ)
  indices : List Nat

/-- A `ufbx_face`: a run of corners. -/
structure ufbx_face where
  index_begin : Nat
  num_indices : Nat

/-- The fields of `ufbx_mesh` that are read. -/
structure ufbx_mesh where
  num_triangles : Nat
  max_face_triangles : Nat
  num_faces : Nat
  faces : List ufbx_face
  vertex_indices : List Nat
  vertex_position : ufbx_vertex_vec3
  vertex_normal : ufbx_vertex_vec3
  vertex_uv : ufbx_vertex_vec2

/-- Modelled from the spec: `ufbx_get_vertex_vec3` is declared in `ufbx.h`, which
is not part of the sources; it is the per-corner attribute accessor, which
resolves the corner index to an entry of the raw attribute array. -/
def ufbx_get_vertex_vec3 (a : ufbx_vertex_vec3) (index : Nat) : Except Fault (ufbx_vec3 ℚ) := do
  let ix ← rd a.indices index
  rd a.values ix

/-- Modelled from the spec: `ufbx_get_vertex_vec2` of `ufbx.h`, the accessor of
a two-component attribute. -/
def ufbx_get_vertex_vec2 (a : ufbx_vertex_vec2) (index : Nat) : Except Fault (ufbx_vec2 ℚ) := do
  let ix ← rd a.indices index
  rd a.values ix

/-! ## The flattener -/

/-- The state of the first loop of `get_skinned_vertex`: `v` and `total_weight`. -/
abbrev GatherState : Type := Vertex × ℚ

/-- The body of the first loop of `get_skinned_vertex`. -/
def gather_body (skin : ufbx_skin_deformer) (skin_vertex : ufbx_skin_vertex)
    (i : Nat) (s : GatherState) : Except Fault GatherState := do
  let skin_weight ← rd skin.weights (skin_vertex.weight_begin + i)
  let bones ← wr4 s.1.bones i skin_weight.cluster_index
  let weights ← wr4 s.1.weights i (Flt.fin skin_weight.weight)
  Except.ok ({ s.1 with bones := bones, weights := weights }, s.2 + skin_weight.weight)

/-- The body of the second loop of `get_skinned_vertex`. -/
def normalize_body (total_weight : ℚ) (i : Nat) (v : Vertex) : Except Fault Vertex := do
  let w ← rd4 v.weights i
  let weights ← wr4 v.weights i (w.divq total_weight)
  Except.ok { v with weights := weights }

/-- The function `get_skinned_vertex`. -/
def get_skinned_vertex (mesh : ufbx_mesh) (skin : ufbx_skin_deformer) (index : Nat) :
    Except Fault Vertex := do
  let position ← ufbx_get_vertex_vec3 mesh.vertex_position index
  let normal ← ufbx_get_vertex_vec3 mesh.vertex_normal index
  let texCoord ← ufbx_get_vertex_vec2 mesh.vertex_uv index
  let v : Vertex := { Vertex.zero with position := position, normal := normal, texCoord := texCoord }
  let vertex ← rd mesh.vertex_indices index
  let skin_vertex ← rd skin.vertices vertex
  let num_weights := skin_vertex.num_weights
  let num_weights := if num_weights > MAX_WEIGHTS then MAX_WEIGHTS else num_weights
  let (v, total_weight) ← forLoop num_weights (gather_body skin skin_vertex) (v, 0)
  let v ← forLoop num_weights (normalize_body total_weight) v
  Except.ok v

/-- What a call of `ufbx_triangulate_face` leaves: the number of triangles it
returns and the contents of the buffer `tri_indices`. -/
structure TriResult where
  num_tris : Nat
  tri_indices : List Nat

/-- The routine `ufbx_triangulate_face` of `ufbx.h`, a parameter of the
embedding: from the buffer size, the mesh and the face to its result. -/
abbrev Triangulator : Type := Nat → ufbx_mesh → ufbx_face → TriResult

/-- The state of the face loop of `process_skinned_mesh`: `vertices` and
`num_vertices`. -/
abbrev FlattenState : Type := List Vertex × Nat

/-- The body of the inner loop of `process_skinned_mesh`. -/
def emit_body (mesh : ufbx_mesh) (skin : ufbx_skin_deformer) (tri_indices : List Nat)
    (i : Nat) (s : FlattenState) : Except Fault FlattenState := do
  let index ← rd tri_indices i
  let v ← get_skinned_vertex mesh skin index
  let vertices ← wr s.1 s.2 v
  Except.ok (vertices, s.2 + 1)

/-- The body of the face loop of `process_skinned_mesh`. -/
def face_body (tri : Triangulator) (mesh : ufbx_mesh) (skin : ufbx_skin_deformer)
    (num_tri_indices : Nat) (face_ix : Nat) (s : FlattenState) : Except Fault FlattenState := do
  let face ← rd mesh.faces face_ix
  let r := tri num_tri_indices mesh face
  let num_tris := r.num_tris
  forLoop (num_tris * 3) (emit_body mesh skin r.tri_indices) s

/-- The body of the bone loop of `process_skinned_mesh`. -/
def bone_body (skin : ufbx_skin_deformer) (i : Nat) (bones : List Bone) :
    Except Fault (List Bone) := do
  let cluster ← rd skin.clusters i
  let b ← rd bones i
  let bones ← wr bones i { b with node_index := cluster.bone_node.typed_id }
  let b ← rd bones i
  wr bones i { b with geometry_to_bone := cluster.geometry_to_bone }

/-- The function `process_skinned_mesh`. -/
def process_skinned_mesh (tri : Triangulator) (mesh : ufbx_mesh) (skin : ufbx_skin_deformer) :
    Except Fault Mesh := do
  let num_triangles := mesh.num_triangles
  let vertices := List.replicate (num_triangles * 3) Vertex.zero
  let num_vertices := 0
  let num_tri_indices := mesh.max_face_triangles * 3
  let (vertices, num_vertices) ←
    forLoop mesh.num_faces (face_body tri mesh skin num_tri_indices) (vertices, num_vertices)
  c_assert (num_vertices == num_triangles * 3)
  let num_bones := skin.clusters.length
  let bones := List.replicate num_bones Bone.zero
  let bones ← forLoop num_bones (bone_body skin) bones
  Except.ok { bones := bones, num_bones := num_bones, vertices := vertices,
              num_vertices := num_vertices }

/-! ## The skinning pass -/

/-- The function `matrix_add`: each of the `3 * 4` entries of `dst` gets
`src->v[i] * weight` added. -/
def matrix_add (dst : ufbx_matrix Flt) (src : ufbx_matrix ℚ) (weight : Flt) : ufbx_matrix Flt :=
  ufbx_matrix.ofFn (fun i => dst.v i + Flt.fin (src.v i) * weight)

/-- Modelled from the spec: `ufbx_matrix_mul` of `ufbx.h`, which is not part of
the sources; the composition of two affine matrices, `a` applied after `b`. -/
def ufbx_matrix_mul (a b : ufbx_matrix ℚ) : ufbx_matrix ℚ :=
  { m00 := a.m00 * b.m00 + a.m01 * b.m10 + a.m02 * b.m20
    m10 := a.m10 * b.m00 + a.m11 * b.m10 + a.m12 * b.m20
    m20 := a.m20 * b.m00 + a.m21 * b.m10 + a.m22 * b.m20
    m01 := a.m00 * b.m01 + a.m01 * b.m11 + a.m02 * b.m21
    m11 := a.m10 * b.m01 + a.m11 * b.m11 + a.m12 * b.m21
    m21 := a.m20 * b.m01 + a.m21 * b.m11 + a.m22 * b.m21
    m02 := a.m00 * b.m02 + a.m01 * b.m12 + a.m02 * b.m22
    m12 := a.m10 * b.m02 + a.m11 * b.m12 + a.m12 * b.m22
    m22 := a.m20 * b.m02 + a.m21 * b.m12 + a.m22 * b.m22
    m03 := a.m00 * b.m03 + a.m01 * b.m13 + a.m02 * b.m23 + a.m03
    m13 := a.m10 * b.m03 + a.m11 * b.m13 + a.m12 * b.m23 + a.m13
    m23 := a.m20 * b.m03 + a.m21 * b.m13 + a.m22 * b.m23 + a.m23 }

/-- Modelled from the spec: `ufbx_transform_position` of `ufbx.h`; the point
transform, which includes the translation. -/
def ufbx_transform_position (m : ufbx_matrix Flt) (v : ufbx_vec3 ℚ) : ufbx_vec3 Flt :=
  { x := m.m00 * Flt.fin v.x + m.m01 * Flt.fin v.y + m.m02 * Flt.fin v.z + m.m03
    y := m.m10 * Flt.fin v.x + m.m11 * Flt.fin v.y + m.m12 * Flt.fin v.z + m.m13
    z := m.m20 * Flt.fin v.x + m.m21 * Flt.fin v.y + m.m22 * Flt.fin v.z + m.m23 }

/-- Modelled from the spec: `ufbx_transform_direction` of `ufbx.h`; the
direction transform, which uses the linear part only. -/
def ufbx_transform_direction (m : ufbx_matrix Flt) (v : ufbx_vec3 ℚ) : ufbx_vec3 Flt :=
  { x := m.m00 * Flt.fin v.x + m.m01 * Flt.fin v.y + m.m02 * Flt.fin v.z
    y := m.m10 * Flt.fin v.x + m.m11 * Flt.fin v.y + m.m12 * Flt.fin v.z
    z := m.m20 * Flt.fin v.x + m.m21 * Flt.fin v.y + m.m22 * Flt.fin v.z }

/-- What `draw_mesh` hands to the rasterizer for one vertex: the arguments of
`glNormal3f`, `glTexCoord2f` and `glVertex3f`. -/
structure Emitted where
  normal : ufbx_vec3 Flt
  texCoord : ufbx_vec2 ℚ
  position : ufbx_vec3 Flt
  deriving DecidableEq

/-- The body of the bone loop of `draw_mesh`. -/
def pose_body (mesh : Mesh) (scene : ufbx_scene) (i : Nat)
    (geometry_to_world : List (ufbx_matrix ℚ)) : Except Fault (List (ufbx_matrix ℚ)) := do
  let bone ← rd mesh.bones i
  let node ← rd scene.nodes bone.node_index
  let bone_to_world := node.node_to_world
  wr geometry_to_world i (ufbx_matrix_mul bone_to_world bone.geometry_to_bone)

/-- The body of the slot loop of `draw_mesh`. -/
def blend_body (geometry_to_world : List (ufbx_matrix ℚ)) (vertex : Vertex) (i : Nat)
    (vertex_to_world : ufbx_matrix Flt) : Except Fault (ufbx_matrix Flt) := do
  let bone_ix ← rd4 vertex.bones i
  let weight ← rd4 vertex.weights i
  let src ← rd geometry_to_world bone_ix
  Except.ok (matrix_add vertex_to_world src weight)

/-- The body of the vertex loop of `draw_mesh`; `out` is the stream emitted so far. -/
def vertex_body (mesh : Mesh) (geometry_to_world : List (ufbx_matrix ℚ)) (vertex_ix : Nat)
    (out : List Emitted) : Except Fault (List Emitted) := do
  let vertex ← rd mesh.vertices vertex_ix
  let vertex_to_world ←
    forLoop MAX_WEIGHTS (blend_body geometry_to_world vertex) (ufbx_matrix.zero Flt)
  let p := ufbx_transform_position vertex_to_world vertex.position
  let n := ufbx_transform_direction vertex_to_world vertex.normal
  let uv := vertex.texCoord
  Except.ok (out ++ [{ normal := n, texCoord := uv, position := p }])

/-- The function `draw_mesh`; its result is the stream of emitted vertices. -/
def draw_mesh (mesh : Mesh) (scene : ufbx_scene) : Except Fault (List Emitted) := do
  let geometry_to_world := List.replicate mesh.num_bones (ufbx_matrix.zero ℚ)
  let geometry_to_world ← forLoop mesh.num_bones (pose_body mesh scene) geometry_to_world
  forLoop mesh.num_vertices (vertex_body mesh geometry_to_world) []

/-! ## The animation clock -/

/-- The clock update of `timer` for a tick of `tick_ms` milliseconds: from the
previous `anim_time` and the clip's `endTime` to the new `anim_time`. -/
def timer_step (tick_ms : ℚ) (anim_time endTime : ℚ) : ℚ :=
  let anim_time := anim_time + tick_ms / 1000
  if anim_time > endTime then 0 else anim_time

/-- The clock update of the function `timer`, whose tick is `TIMER_MS`. -/
def timer (anim_time endTime : ℚ) : ℚ :=
  timer_step TIMER_MS anim_time endTime

/-! ## Specification-side definitions -/

/-- The influences of a skin, as a function of the position (an influence of
cluster 0 and weight 0 past the end). -/
def stored (skin : ufbx_skin_deformer) (i : Nat) : ufbx_skin_weight :=
  skin.weights.getD i ⟨0, 0⟩

/-- The number of influences `get_skinned_vertex` takes from a raw vertex
that stores `n` of them: the first `min n MAX_WEIGHTS`. -/
def taken (n : Nat) : Nat := min n MAX_WEIGHTS

/-- The sum of the first `n` weights of the influences `infl 0, infl 1, ...`. -/
def taken_total (infl : Nat → ufbx_skin_weight) : Nat → ℚ
  | 0 => 0
  | n + 1 => taken_total infl n + (infl n).weight

/-- The vertex the flattener is to build from the corner's attributes and the
first `m` influences `infl 0 .. infl (m - 1)` of its raw vertex: slot `i < m`
holds the cluster of `infl i` and its weight divided by the sum of the `m`
weights, the other slots hold weight 0 and bone 0. -/
def skinned_spec (position normal : ufbx_vec3 ℚ) (texCoord : ufbx_vec2 ℚ)
    (infl : Nat → ufbx_skin_weight) (m : Nat) : Vertex :=
  { position := position, normal := normal, texCoord := texCoord,
    weights := fun j =>
      if j.val < m then (Flt.fin (infl j.val).weight).divq (taken_total infl m) else 0,
    bones := fun j => if j.val < m then (infl j.val).cluster_index else 0 }

/-- The sum of the populated weights of a vertex, slots `0 .. m - 1`. -/
def populated_sum (v : Vertex) (m : Nat) : Flt :=
  ∑ j : Fin MAX_WEIGHTS, if j.val < m then v.weights j else 0

/-- The array accesses of `get_skinned_vertex` at the corner `index` are in
range, and they find the attributes `position`, `normal`, `texCoord`, the skin
vertex `sv` of the corner's raw vertex, and `infl i` at the position
`sv.weight_begin + i` of the stored influences, for every `i` that is taken. -/
structure CornerAt (mesh : ufbx_mesh) (skin : ufbx_skin_deformer) (index : Nat)
    (position normal : ufbx_vec3 ℚ) (texCoord : ufbx_vec2 ℚ) (sv : ufbx_skin_vertex)
    (infl : Nat → ufbx_skin_weight) : Prop where
  position_eq : ufbx_get_vertex_vec3 mesh.vertex_position index = Except.ok position
  normal_eq : ufbx_get_vertex_vec3 mesh.vertex_normal index = Except.ok normal
  texCoord_eq : ufbx_get_vertex_vec2 mesh.vertex_uv index = Except.ok texCoord
  raw_vertex : ∃ vertex, mesh.vertex_indices[index]? = some vertex ∧
    skin.vertices[vertex]? = some sv
  influences : ∀ i, i < taken sv.num_weights →
    skin.weights[sv.weight_begin + i]? = some (infl i)

/-- The buffer `vs` with the entries `nv, nv + 1, ...` replaced by `out`. -/
def overwrite {α : Type} (vs : List α) (nv : Nat) (out : List α) : List α :=
  vs.take nv ++ out ++ vs.drop (nv + out.length)

/-- The vertices of the corners `tri_indices[0 .. k - 1]`, in order. -/
def corner_vertices (mesh : ufbx_mesh) (skin : ufbx_skin_deformer) (tri_indices : List Nat) :
    Nat → Except Fault (List Vertex)
  | 0 => Except.ok []
  | k + 1 => do
    let out ← corner_vertices mesh skin tri_indices k
    let index ← rd tri_indices k
    let v ← get_skinned_vertex mesh skin index
    Except.ok (out ++ [v])

/-- What triangulation reports for a face of the mesh. -/
def triangulated (tri : Triangulator) (mesh : ufbx_mesh) (face : ufbx_face) : TriResult :=
  tri (mesh.max_face_triangles * 3) mesh face

/-- The vertices of all corners of the faces `0 .. f - 1`, face after face. -/
def flattened (tri : Triangulator) (mesh : ufbx_mesh) (skin : ufbx_skin_deformer) :
    Nat → Except Fault (List Vertex)
  | 0 => Except.ok []
  | f + 1 => do
    let out ← flattened tri mesh skin f
    let face ← rd mesh.faces f
    let r := triangulated tri mesh face
    let vs ← corner_vertices mesh skin r.tri_indices (r.num_tris * 3)
    Except.ok (out ++ vs)

/-- The triangle count triangulation reports for the face `face_ix` (0 when
the mesh has no such face). -/
def face_triangles (tri : Triangulator) (mesh : ufbx_mesh) (face_ix : Nat) : Nat :=
  match mesh.faces[face_ix]? with
  | some face => (triangulated tri mesh face).num_tris
  | none => 0

/-- The sum over the faces `0 .. f - 1` of the reported triangle counts. -/
def reported_triangles (tri : Triangulator) (mesh : ufbx_mesh) (f : Nat) : Nat :=
  ∑ face_ix in Finset.range f, face_triangles tri mesh face_ix

/-- The bone a cluster is to give. -/
def bone_of_cluster (c : ufbx_skin_cluster) : Bone :=
  { node_index := c.bone_node.typed_id, geometry_to_bone := c.geometry_to_bone,
    rest_pose := ufbx_matrix.zero ℚ }

/-- The skinning matrix of the bone `i` of the mesh in the scene:
`node_to_world` of the bone's node composed with the bone's `geometry_to_bone`
(the zero matrix when the mesh has no such bone or the scene no such node). -/
def skinning_matrix (mesh : Mesh) (scene : ufbx_scene) (i : Nat) : ufbx_matrix ℚ :=
  match mesh.bones[i]? with
  | some bone =>
    match scene.nodes[bone.node_index]? with
    | some node => ufbx_matrix_mul node.node_to_world bone.geometry_to_bone
    | none => ufbx_matrix.zero ℚ
  | none => ufbx_matrix.zero ℚ

/-- The blended transform of the specification: entry by entry, the sum over
the slots of the slot's weight times the slot's matrix. -/
def blend (S : Slots (ufbx_matrix ℚ)) (w : Slots Flt) : ufbx_matrix Flt :=
  ufbx_matrix.ofFn (fun k => ∑ i : Fin MAX_WEIGHTS, w i * Flt.fin ((S i).v k))

/-- The blended transform `T_v` of a vertex of the mesh in the scene. -/
def vertex_transform (mesh : Mesh) (scene : ufbx_scene) (v : Vertex) : ufbx_matrix Flt :=
  blend (fun i => skinning_matrix mesh scene (v.bones i)) v.weights

/-- What the specification has `draw_mesh` emit for a vertex. -/
def emitted_spec (mesh : Mesh) (scene : ufbx_scene) (v : Vertex) : Emitted :=
  { normal := ufbx_transform_direction (vertex_transform mesh scene v) v.normal,
    texCoord := v.texCoord,
    position := ufbx_transform_position (vertex_transform mesh scene v) v.position }

/-- Every array access of `draw_mesh` is in range: the counts are within the
buffers, every bone's node is a node of the scene, and all four bone slots of
every vertex are below `num_bones`. -/
structure DrawReady (mesh : Mesh) (scene : ufbx_scene) : Prop where
  bones_le : mesh.num_bones ≤ mesh.bones.length
  nodes_lt : ∀ b, b ∈ mesh.bones.take mesh.num_bones → b.node_index < scene.nodes.length
  vertices_le : mesh.num_vertices ≤ mesh.vertices.length
  slots_lt : ∀ v, v ∈ mesh.vertices.take mesh.num_vertices → ∀ i, v.bones i < mesh.num_bones

/-- The identity matrix. -/
def ufbx_identity_matrix : ufbx_matrix ℚ :=
  { m00 := 1, m10 := 0, m20 := 0, m01 := 0, m11 := 1, m21 := 0,
    m02 := 0, m12 := 0, m22 := 1, m03 := 0, m13 := 0, m23 := 0 }

/-- The translation by `(x, y, z)`. -/
def translation_matrix (x y z : ℚ) : ufbx_matrix ℚ :=
  { ufbx_identity_matrix with m03 := x, m13 := y, m23 := z }

/-- A vector of finite coordinates as a computed vector. -/
def ufbx_vec3.toFlt (p : ufbx_vec3 ℚ) : ufbx_vec3 Flt :=
  { x := Flt.fin p.x, y := Flt.fin p.y, z := Flt.fin p.z }

/-- Every corner that triangulation reports for the faces of the mesh has a
vertex: its position in the buffer `tri_indices` is filled, and the accesses of
`get_skinned_vertex` at the index found there are in range. -/
def CornersReady (tri : Triangulator) (mesh : ufbx_mesh) (skin : ufbx_skin_deformer) : Prop :=
  ∀ face, face ∈ mesh.faces.take mesh.num_faces →
    ∀ i, i < (triangulated tri mesh face).num_tris * 3 →
      ∃ index v, (triangulated tri mesh face).tri_indices[i]? = some index ∧
        get_skinned_vertex mesh skin index = Except.ok v

/-- The clock after `n` ticks of `timer`, started at time 0, for a clip that
ends at `endTime`. -/
def clock_after (endTime : ℚ) : Nat → ℚ
  | 0 => 0
  | n + 1 => timer (clock_after endTime n) endTime

/-! ## Concrete inputs -/

/-- A triangulator for the examples: a face of `n >= 3` corners gives the fan
of `n - 2` triangles on its first corner, any other face gives no triangle. -/
def fan_triangulate : Triangulator := fun _ _ face =>
  if face.num_indices < 3 then { num_tris := 0, tri_indices := [] }
  else
    { num_tris := face.num_indices - 2,
      tri_indices := (List.range (face.num_indices - 2)).flatMap (fun i =>
        [face.index_begin, face.index_begin + i + 1, face.index_begin + i + 2]) }

/-- An attribute with the single value `p`, used by `n` corners. -/
def const_vec3 (p : ufbx_vec3 ℚ) (n : Nat) : ufbx_vertex_vec3 :=
  { values := [p], indices := List.replicate n 0 }

/-- An attribute with the single value `p`, used by `n` corners. -/
def const_vec2 (p : ufbx_vec2 ℚ) (n : Nat) : ufbx_vertex_vec2 :=
  { values := [p], indices := List.replicate n 0 }

/-- A node with the given identity and world transform. -/
def node_at (id : Nat) (m : ufbx_matrix ℚ) : ufbx_node := { typed_id := id, node_to_world := m }

/-- A cluster on the node `id`, bound with the identity matrix. -/
def cluster_on (id : Nat) : ufbx_skin_cluster :=
  { bone_node := node_at id ufbx_identity_matrix, geometry_to_bone := ufbx_identity_matrix }

/-- A mesh of `corners` corners, all at the position `p`, in which corner `i`
uses the raw vertex `i`, with the given faces and triangle count. -/
def flat_mesh (p : ufbx_vec3 ℚ) (corners : Nat) (faces : List ufbx_face)
    (num_triangles : Nat) : ufbx_mesh :=
  { num_triangles := num_triangles, max_face_triangles := 2, num_faces := faces.length,
    faces := faces,
    vertex_indices := List.range corners,
    vertex_position := const_vec3 p corners,
    vertex_normal := const_vec3 ⟨0, 0, 1⟩ corners,
    vertex_uv := const_vec2 ⟨0, 0⟩ corners }

/-- A mesh of one triangle whose three corners use the raw vertices 0, 1, 2,
all at the position `p`. -/
def triangle_mesh (p : ufbx_vec3 ℚ) : ufbx_mesh :=
  flat_mesh p 3 [{ index_begin := 0, num_indices := 3 }] 1

/-- A mesh of one quad whose four corners use the raw vertices 0, 1, 2, 3. -/
def quad_mesh (p : ufbx_vec3 ℚ) : ufbx_mesh :=
  flat_mesh p 4 [{ index_begin := 0, num_indices := 4 }] 2

/-- A mesh of a malformed face of two corners followed by a triangle, five
corners in all; its triangle count is 1. -/
def malformed_face_mesh (p : ufbx_vec3 ℚ) : ufbx_mesh :=
  flat_mesh p 5 [{ index_begin := 0, num_indices := 2 }, { index_begin := 2, num_indices := 3 }] 1

/-- A skin of two clusters in which each of `n` raw vertices has the single
influence of cluster 0 with weight 1. -/
def rigid_skin (n : Nat) : ufbx_skin_deformer :=
  { clusters := [cluster_on 0, cluster_on 1],
    vertices := (List.range n).map (fun i => ⟨i, 1⟩),
    weights := List.replicate n ⟨0, 1⟩ }

/-- A skin without clusters in which each of three raw vertices has no influence. -/
def bare_skin : ufbx_skin_deformer :=
  { clusters := [], vertices := [⟨0, 0⟩, ⟨0, 0⟩, ⟨0, 0⟩], weights := [] }

/-- A skin of two clusters whose raw vertex 0 lists five influences, the first
four of weight 0 and the fifth of weight 1; the raw vertices 1 and 2 have one
influence of weight 1. -/
def late_weight_skin : ufbx_skin_deformer :=
  { clusters := [cluster_on 0, cluster_on 1],
    vertices := [⟨0, 5⟩, ⟨5, 1⟩, ⟨6, 1⟩],
    weights := [⟨0, 0⟩, ⟨1, 0⟩, ⟨0, 0⟩, ⟨1, 0⟩, ⟨0, 1⟩, ⟨0, 1⟩, ⟨1, 1⟩] }

/-- A skin of two clusters whose raw vertex 0 lists two influences, of the
weights 1 and -1; the raw vertices 1 and 2 have one influence of weight 1. -/
def cancelling_skin : ufbx_skin_deformer :=
  { clusters := [cluster_on 0, cluster_on 1],
    vertices := [⟨0, 2⟩, ⟨2, 1⟩, ⟨3, 1⟩],
    weights := [⟨0, 1⟩, ⟨1, -1⟩, ⟨0, 1⟩, ⟨1, 1⟩] }

/-- A skin of two clusters whose raw vertex 0 lists five influences of weights
3, 1, 2, 2, 5; the raw vertices 1 and 2 have one influence of weight 1. -/
def five_weight_skin : ufbx_skin_deformer :=
  { clusters := [cluster_on 0, cluster_on 1],
    vertices := [⟨0, 5⟩, ⟨5, 1⟩, ⟨6, 1⟩],
    weights := [⟨1, 3⟩, ⟨0, 1⟩, ⟨1, 2⟩, ⟨0, 2⟩, ⟨1, 5⟩, ⟨0, 1⟩, ⟨1, 1⟩] }

/-- A skin of two clusters whose raw vertex 0 lists two influences, both of
weight 0; the raw vertices 1 and 2 have one influence of weight 1. -/
def zero_sum_skin : ufbx_skin_deformer :=
  { clusters := [cluster_on 0, cluster_on 1],
    vertices := [⟨0, 2⟩, ⟨2, 1⟩, ⟨3, 1⟩],
    weights := [⟨0, 0⟩, ⟨1, 0⟩, ⟨0, 1⟩, ⟨1, 1⟩] }

/-- A scene of two nodes: node 0 is translated by (10, 0, 0), node 1 is at rest. -/
def shifted_scene : ufbx_scene :=
  { nodes := [node_at 0 (translation_matrix 10 0 0), node_at 1 ufbx_identity_matrix] }

/-- A vertex at the origin with two influences, of the bones 0 and 1, each of weight 1/2. -/
def half_vertex : Vertex :=
  { position := ⟨0, 0, 0⟩, normal := ⟨0, 0, 1⟩, texCoord := ⟨0, 0⟩,
    weights := ![Flt.fin (1 / 2), Flt.fin (1 / 2), 0, 0], bones := ![0, 1, 0, 0] }

/-- A mesh of the single vertex `half_vertex` and two bones, on the nodes 0 and
1, bound with the identity matrix. -/
def two_bone_mesh : Mesh :=
  { bones := [bone_of_cluster (cluster_on 0), bone_of_cluster (cluster_on 1)], num_bones := 2,
    vertices := [half_vertex], num_vertices := 1 }

/-- A vertex at (1, 0, 0) without influence: all weights and bones are 0. -/
def loose_vertex : Vertex :=
  { Vertex.zero with position := ⟨1, 0, 0⟩, normal := ⟨0, 0, 1⟩ }

/-- A vertex at (1, 2, 3) with the single influence of bone 0, of weight 1. -/
def rigid_vertex : Vertex :=
  { position := ⟨1, 2, 3⟩, normal := ⟨0, 0, 1⟩, texCoord := ⟨0, 0⟩,
    weights := ![1, 0, 0, 0], bones := ![0, 0, 0, 0] }

/-- A mesh of one bone, on node 0 and bound with the identity matrix, and the
given vertices. -/
def one_bone_mesh (vs : List Vertex) : Mesh :=
  { bones := [bone_of_cluster (cluster_on 0)], num_bones := 1,
    vertices := vs, num_vertices := vs.length }

/-- A scene of one node, at rest. -/
def rest_scene : ufbx_scene := { nodes := [node_at 0 ufbx_identity_matrix] }

/-- A skin of one cluster in which each of three raw vertices has no influence. -/
def uninfluenced_skin : ufbx_skin_deformer :=
  { clusters := [cluster_on 0], vertices := [⟨0, 0⟩, ⟨0, 0⟩, ⟨0, 0⟩], weights := [] }

/-! ## Basic facts -/

section basics

variable {α σ : Type}

theorem ok_bind {β : Type} (a : α) (f : α → Except Fault β) : (Except.ok a >>= f) = f a := rfl

theorem error_bind {β : Type} (e : Fault) (f : α → Except Fault β) :
    ((Except.error e : Except Fault α) >>= f) = Except.error e := rfl

theorem rd_eq_ok {xs : List α} {i : Nat} {x : α} (h : xs[i]? = some x) :
    rd xs i = Except.ok x := by
  simp [rd, h]

theorem rd_ok_iff {xs : List α} {i : Nat} {x : α} : rd xs i = Except.ok x ↔ xs[i]? = some x := by
  unfold rd
  cases h : xs[i]? <;> simp

theorem wr_eq_ok {xs : List α} {i : Nat} (x : α) (h : i < xs.length) :
    wr xs i x = Except.ok (xs.set i x) := by
  simp [wr, h]

theorem wr_ok_iff {xs ys : List α} {i : Nat} {x : α} :
    wr xs i x = Except.ok ys ↔ i < xs.length ∧ ys = xs.set i x := by
  unfold wr
  split <;> simp_all [eq_comm]

theorem forLoop_zero (body : Nat → σ → Except Fault σ) (s : σ) :
    forLoop 0 body s = Except.ok s := rfl

theorem forLoop_succ (n : Nat) (body : Nat → σ → Except Fault σ) (s : σ) :
    forLoop (n + 1) body s = (forLoop n body s >>= body n) := by
  simp [forLoop, List.range_succ, List.foldlM_append]

theorem bind_eq_ok {β : Type} (x : Except Fault α) (f : α → Except Fault β) (b : β) :
    (x >>= f) = Except.ok b ↔ ∃ a, x = Except.ok a ∧ f a = Except.ok b := by
  cases x with
  | error e => simp [error_bind]
  | ok a => simp [ok_bind]

theorem overwrite_nil (vs : List α) (nv : Nat) : overwrite vs nv [] = vs := by
  simp [overwrite]

theorem length_overwrite (vs : List α) (nv : Nat) (out : List α)
    (h : nv + out.length ≤ vs.length) : (overwrite vs nv out).length = vs.length := by
  simp [overwrite]
  omega

theorem overwrite_overwrite (vs : List α) (nv : Nat) (out out2 : List α)
    (h : nv + out.length + out2.length ≤ vs.length) :
    overwrite (overwrite vs nv out) (nv + out.length) out2 = overwrite vs nv (out ++ out2) := by
  have h1 : (vs.take nv ++ out).length = nv + out.length := by
    simp
    omega
  have h2 : (overwrite vs nv out).take (nv + out.length) = vs.take nv ++ out := by
    unfold overwrite
    rw [← h1, List.take_left]
  have h3 : (overwrite vs nv out).drop (nv + out.length + out2.length) =
      vs.drop (nv + out.length + out2.length) := by
    unfold overwrite
    rw [← h1, List.drop_append, List.drop_drop, h1]
  unfold overwrite at h2 h3 ⊢
  rw [h2, h3]
  simp [Nat.add_assoc]

theorem set_eq_overwrite (vs : List α) (i : Nat) (x : α) (h : i < vs.length) :
    vs.set i x = overwrite vs i [x] := by
  unfold overwrite
  rw [List.set_eq_take_append_cons_drop]
  simp [h]

end basics

/-! ## Arithmetic of computed values -/

namespace Flt

@[simp] theorem fin_add_fin (a b : ℚ) : Flt.fin a + Flt.fin b = Flt.fin (a + b) := rfl
@[simp] theorem fin_mul_fin (a b : ℚ) : Flt.fin a * Flt.fin b = Flt.fin (a * b) := rfl
@[simp] theorem nonfinite_add (a : Flt) : Flt.nonfinite + a = Flt.nonfinite := rfl
@[simp] theorem add_nonfinite (a : Flt) : a + Flt.nonfinite = Flt.nonfinite := by
  cases a <;> rfl
@[simp] theorem nonfinite_mul (a : Flt) : Flt.nonfinite * a = Flt.nonfinite := rfl
@[simp] theorem mul_nonfinite (a : Flt) : a * Flt.nonfinite = Flt.nonfinite := by
  cases a <;> rfl
theorem zero_def : (0 : Flt) = Flt.fin 0 := rfl
theorem one_def : (1 : Flt) = Flt.fin 1 := rfl

@[simp] theorem zero_add_flt (a : Flt) : (0 : Flt) + a = a := by
  cases a <;> simp [zero_def]

@[simp] theorem add_zero_flt (a : Flt) : a + (0 : Flt) = a := by
  cases a <;> simp [zero_def]

theorem mul_comm_flt (a b : Flt) : a * b = b * a := by
  cases a <;> cases b <;> simp [mul_comm]

@[simp] theorem divq_fin (a b : ℚ) (h : b ≠ 0) : (Flt.fin a).divq b = Flt.fin (a / b) := by
  simp [divq, h]

@[simp] theorem divq_zero (a : Flt) : a.divq 0 = Flt.nonfinite := by
  cases a <;> simp [divq]

/-- A finite sum has finite summands. -/
theorem add_eq_fin {a b : Flt} {c : ℚ} (h : a + b = Flt.fin c) :
    ∃ x y, a = Flt.fin x ∧ b = Flt.fin y ∧ x + y = c := by
  cases a <;> cases b <;> simp at h
  exact ⟨_, _, rfl, rfl, h⟩

end Flt

/-! ## The loops of `get_skinned_vertex` -/

/-- The first loop after `n` iterations: slots below `n` hold the stored
influences, and the running total is the sum of their weights. -/
theorem gather_loop (skin : ufbx_skin_deformer) (sv : ufbx_skin_vertex)
    (infl : Nat → ufbx_skin_weight) (v0 : Vertex) (n : Nat) (hn : n ≤ MAX_WEIGHTS)
    (hin : ∀ i, i < n → skin.weights[sv.weight_begin + i]? = some (infl i)) :
    forLoop n (gather_body skin sv) (v0, 0) =
      Except.ok
        ({ v0 with
            bones := fun j => if j.val < n then (infl j.val).cluster_index else v0.bones j,
            weights := fun j => if j.val < n then Flt.fin (infl j.val).weight else v0.weights j },
          taken_total infl n) := by
  induction n with
  | zero => simp [forLoop_zero, taken_total]
  | succ k ih =>
    have hk : k < MAX_WEIGHTS := hn
    rw [forLoop_succ, ih (Nat.le_of_lt hk) (fun i hi => hin i (Nat.lt_succ_of_lt hi)), ok_bind]
    simp only [gather_body, rd_eq_ok (hin k (Nat.lt_succ_self k)), ok_bind, wr4, hk, if_true,
      taken_total]
    congr 2
    congr 1
    · funext j
      by_cases h1 : j.val = k
      · simp [h1]
      · have h2 : (j.val < k + 1) ↔ (j.val < k) := by omega
        simp [h1, h2]
    · funext j
      by_cases h1 : j.val = k
      · simp [h1]
      · have h2 : (j.val < k + 1) ↔ (j.val < k) := by omega
        simp [h1, h2]

/-- The second loop after `n` iterations: slots below `n` are divided by the total. -/
theorem normalize_loop (t : ℚ) (v0 : Vertex) (n : Nat) (hn : n ≤ MAX_WEIGHTS) :
    forLoop n (normalize_body t) v0 =
      Except.ok
        { v0 with
          weights := fun j => if j.val < n then (v0.weights j).divq t else v0.weights j } := by
  induction n with
  | zero => simp [forLoop_zero]
  | succ k ih =>
    have hk : k < MAX_WEIGHTS := hn
    rw [forLoop_succ, ih (Nat.le_of_lt hk), ok_bind]
    simp only [normalize_body, rd4, wr4, hk, dif_pos, if_true, ok_bind]
    congr 2
    funext j
    by_cases h1 : j.val = k
    · have h3 : j = ⟨k, hk⟩ := Fin.ext h1
      subst h3
      simp
    · have h2 : (j.val < k + 1) ↔ (j.val < k) := by omega
      simp [h1, h2]

theorem taken_le (n : Nat) : taken n ≤ MAX_WEIGHTS := Nat.min_le_right _ _

theorem taken_eq_ite (n : Nat) : (if n > MAX_WEIGHTS then MAX_WEIGHTS else n) = taken n := by
  unfold taken
  split <;> omega

/-- The result of `get_skinned_vertex` when every array access it makes is in
range: the vertex described by `skinned_spec`. -/
theorem get_skinned_vertex_eq (mesh : ufbx_mesh) (skin : ufbx_skin_deformer) (index : Nat)
    (position normal : ufbx_vec3 ℚ) (texCoord : ufbx_vec2 ℚ) (vertex : Nat)
    (sv : ufbx_skin_vertex) (infl : Nat → ufbx_skin_weight)
    (hp : ufbx_get_vertex_vec3 mesh.vertex_position index = Except.ok position)
    (hnm : ufbx_get_vertex_vec3 mesh.vertex_normal index = Except.ok normal)
    (ht : ufbx_get_vertex_vec2 mesh.vertex_uv index = Except.ok texCoord)
    (hv : mesh.vertex_indices[index]? = some vertex)
    (hsv : skin.vertices[vertex]? = some sv)
    (hin : ∀ i, i < taken sv.num_weights → skin.weights[sv.weight_begin + i]? = some (infl i)) :
    get_skinned_vertex mesh skin index =
      Except.ok (skinned_spec position normal texCoord infl (taken sv.num_weights)) := by
  unfold get_skinned_vertex
  simp only [hp, hnm, ht, rd_eq_ok hv, rd_eq_ok hsv, ok_bind, taken_eq_ite]
  rw [gather_loop skin sv infl _ _ (taken_le _) hin]
  simp only [ok_bind]
  rw [normalize_loop _ _ _ (taken_le _)]
  simp only [ok_bind, skinned_spec, Vertex.zero]
  congr 2
  funext j
  by_cases h : j.val < taken sv.num_weights <;> simp [h]

/-! ## The loops of `process_skinned_mesh` -/

theorem length_corner_vertices (mesh : ufbx_mesh) (skin : ufbx_skin_deformer)
    (ti : List Nat) (k : Nat) (out : List Vertex)
    (h : corner_vertices mesh skin ti k = Except.ok out) : out.length = k := by
  induction k generalizing out with
  | zero =>
    simp only [corner_vertices, Except.ok.injEq] at h
    simp [← h]
  | succ n ih =>
    simp only [corner_vertices, bind_eq_ok, Except.ok.injEq] at h
    obtain ⟨o, ho, index, _, v, _, hout⟩ := h
    simp [← hout, ih o ho]

/-- One run of the inner loop body. -/
theorem emit_body_ok_iff (mesh : ufbx_mesh) (skin : ufbx_skin_deformer) (ti : List Nat)
    (i : Nat) (s s2 : FlattenState) :
    emit_body mesh skin ti i s = Except.ok s2 ↔
      ∃ index v, rd ti i = Except.ok index ∧ get_skinned_vertex mesh skin index = Except.ok v ∧
        s.2 < s.1.length ∧ s2 = (s.1.set s.2 v, s.2 + 1) := by
  simp only [emit_body, bind_eq_ok, wr_ok_iff, Except.ok.injEq]
  constructor
  · rintro ⟨index, h1, v, h2, vs, ⟨h3, h4⟩, h5⟩
    exact ⟨index, v, h1, h2, h3, by rw [← h5, h4]⟩
  · rintro ⟨index, v, h1, h2, h3, h4⟩
    exact ⟨index, h1, v, h2, _, ⟨h3, rfl⟩, h4.symm⟩

/-- The inner loop of `process_skinned_mesh` returns exactly when the corners
have vertices and the buffer has room for them, and then it has stored them. -/
theorem emit_loop_ok_iff (mesh : ufbx_mesh) (skin : ufbx_skin_deformer) (ti : List Nat)
    (vs : List Vertex) (nv : Nat) (hnv : nv ≤ vs.length) (k : Nat) (s2 : FlattenState) :
    forLoop k (emit_body mesh skin ti) (vs, nv) = Except.ok s2 ↔
      ∃ out, corner_vertices mesh skin ti k = Except.ok out ∧ nv + out.length ≤ vs.length ∧
        s2 = (overwrite vs nv out, nv + out.length) := by
  induction k generalizing s2 with
  | zero =>
    simp only [forLoop_zero, corner_vertices, Except.ok.injEq]
    constructor
    · intro h
      exact ⟨[], rfl, by simpa using hnv, by simp [overwrite_nil, ← h]⟩
    · rintro ⟨out, h1, _, h3⟩
      subst h1
      simp [h3, overwrite_nil]
  | succ n ih =>
    rw [forLoop_succ, bind_eq_ok]
    simp only [corner_vertices, bind_eq_ok, Except.ok.injEq]
    constructor
    · rintro ⟨s1, h1, h2⟩
      obtain ⟨out, ho, hle, hs1⟩ := (ih s1).1 h1
      obtain ⟨index, v, hi, hv, hlt, hs2⟩ := (emit_body_ok_iff _ _ _ _ _ _).1 h2
      subst hs1
      simp only [length_overwrite _ _ _ hle] at hlt
      refine ⟨out ++ [v], ⟨out, ho, index, hi, v, hv, rfl⟩, ?_, ?_⟩
      · simp only [List.length_append, List.length_singleton]
        omega
      · rw [hs2]
        simp only [List.length_append, List.length_singleton, Nat.add_assoc]
        rw [set_eq_overwrite _ _ _ (by rw [length_overwrite _ _ _ hle]; exact hlt),
          overwrite_overwrite _ _ _ _ (by simp only [List.length_singleton]; omega)]
    · rintro ⟨out2, ⟨out, ho, index, hi, v, hv, hout2⟩, hle, hs2⟩
      subst hout2
      simp only [List.length_append, List.length_singleton] at hle hs2
      have hle1 : nv + out.length ≤ vs.length := by omega
      refine ⟨(overwrite vs nv out, nv + out.length), (ih _).2 ⟨out, ho, hle1, rfl⟩, ?_⟩
      rw [emit_body_ok_iff]
      refine ⟨index, v, hi, hv, ?_, ?_⟩
      · simp only [length_overwrite _ _ _ hle1]
        omega
      · rw [hs2]
        simp only [Nat.add_assoc]
        rw [set_eq_overwrite _ _ _ (by rw [length_overwrite _ _ _ hle1]; omega),
          overwrite_overwrite _ _ _ _ (by simp only [List.length_singleton]; omega)]

/-- The face loop of `process_skinned_mesh` returns exactly when all corners of
the faces have vertices and the buffer has room for them. -/
theorem face_loop_ok_iff (tri : Triangulator) (mesh : ufbx_mesh) (skin : ufbx_skin_deformer)
    (vs : List Vertex) (nv : Nat) (hnv : nv ≤ vs.length) (f : Nat) (s2 : FlattenState) :
    forLoop f (face_body tri mesh skin (mesh.max_face_triangles * 3)) (vs, nv) = Except.ok s2 ↔
      ∃ out, flattened tri mesh skin f = Except.ok out ∧ nv + out.length ≤ vs.length ∧
        s2 = (overwrite vs nv out, nv + out.length) := by
  induction f generalizing s2 with
  | zero =>
    simp only [forLoop_zero, flattened, Except.ok.injEq]
    constructor
    · intro h
      exact ⟨[], rfl, by simpa using hnv, by simp [overwrite_nil, ← h]⟩
    · rintro ⟨out, h1, _, h3⟩
      subst h1
      simp [h3, overwrite_nil]
  | succ n ih =>
    rw [forLoop_succ, bind_eq_ok]
    simp only [flattened, face_body, bind_eq_ok, Except.ok.injEq, triangulated]
    constructor
    · rintro ⟨s1, h1, face, hf, h2⟩
      obtain ⟨out, ho, hle, hs1⟩ := (ih s1).1 h1
      subst hs1
      rw [emit_loop_ok_iff _ _ _ _ _ (by rw [length_overwrite _ _ _ hle]; exact hle)] at h2
      obtain ⟨o2, ho2, hle2, hs2⟩ := h2
      rw [length_overwrite _ _ _ hle] at hle2
      refine ⟨out ++ o2, ⟨out, ho, face, hf, o2, ho2, rfl⟩, ?_, ?_⟩
      · simp only [List.length_append]
        omega
      · rw [hs2, overwrite_overwrite _ _ _ _ hle2]
        simp [Nat.add_assoc]
    · rintro ⟨out2, ⟨out, ho, face, hf, o2, ho2, hout2⟩, hle, hs2⟩
      subst hout2
      simp only [List.length_append] at hle hs2
      have hle1 : nv + out.length ≤ vs.length := by omega
      refine ⟨(overwrite vs nv out, nv + out.length), (ih _).2 ⟨out, ho, hle1, rfl⟩, face, hf, ?_⟩
      rw [emit_loop_ok_iff _ _ _ _ _ (by rw [length_overwrite _ _ _ hle1]; exact hle1)]
      refine ⟨o2, ho2, ?_, ?_⟩
      · rw [length_overwrite _ _ _ hle1]
        omega
      · rw [hs2, overwrite_overwrite _ _ _ _ (by omega)]
        simp [Nat.add_assoc]

/-- The flattened vertices are three for every reported triangle. -/
theorem length_flattened (tri : Triangulator) (mesh : ufbx_mesh) (skin : ufbx_skin_deformer)
    (f : Nat) (out : List Vertex) (h : flattened tri mesh skin f = Except.ok out) :
    out.length = 3 * reported_triangles tri mesh f := by
  induction f generalizing out with
  | zero =>
    simp only [flattened, Except.ok.injEq] at h
    simp [← h, reported_triangles]
  | succ n ih =>
    simp only [flattened, bind_eq_ok, Except.ok.injEq] at h
    obtain ⟨o, ho, face, hf, o2, ho2, hout⟩ := h
    have hft : face_triangles tri mesh n = (triangulated tri mesh face).num_tris := by
      simp [face_triangles, rd_ok_iff.1 hf]
    have hl2 := length_corner_vertices _ _ _ _ _ ho2
    unfold reported_triangles at ih ⊢
    rw [Finset.sum_range_succ, ← hout, List.length_append, ih o ho, hl2, hft]
    ring

/-- A property of every vertex `get_skinned_vertex` returns holds for the
vertices of the corners. -/
theorem corner_vertices_forall (P : Vertex → Prop) (mesh : ufbx_mesh)
    (skin : ufbx_skin_deformer)
    (hP : ∀ index v, get_skinned_vertex mesh skin index = Except.ok v → P v)
    (ti : List Nat) (k : Nat) (out : List Vertex)
    (h : corner_vertices mesh skin ti k = Except.ok out) : ∀ v, v ∈ out → P v := by
  induction k generalizing out with
  | zero =>
    simp only [corner_vertices, Except.ok.injEq] at h
    simp [← h]
  | succ n ih =>
    simp only [corner_vertices, bind_eq_ok, Except.ok.injEq] at h
    obtain ⟨o, ho, index, _, v, hv, hout⟩ := h
    intro w hw
    rw [← hout, List.mem_append, List.mem_singleton] at hw
    rcases hw with hw | hw
    · exact ih o ho w hw
    · exact hw ▸ hP index v hv

/-- A property of every vertex `get_skinned_vertex` returns holds for the
flattened vertices. -/
theorem flattened_forall (P : Vertex → Prop) (tri : Triangulator) (mesh : ufbx_mesh)
    (skin : ufbx_skin_deformer)
    (hP : ∀ index v, get_skinned_vertex mesh skin index = Except.ok v → P v)
    (f : Nat) (out : List Vertex)
    (h : flattened tri mesh skin f = Except.ok out) : ∀ v, v ∈ out → P v := by
  induction f generalizing out with
  | zero =>
    simp only [flattened, Except.ok.injEq] at h
    simp [← h]
  | succ n ih =>
    simp only [flattened, bind_eq_ok, Except.ok.injEq] at h
    obtain ⟨o, ho, face, _, o2, ho2, hout⟩ := h
    intro w hw
    rw [← hout, List.mem_append] at hw
    rcases hw with hw | hw
    · exact ih o ho w hw
    · exact corner_vertices_forall P mesh skin hP _ _ _ ho2 w hw

/-- The bone loop after `k` iterations: the first `k` bones are those of the
first `k` clusters, the others are still zero. -/
theorem bone_loop (skin : ufbx_skin_deformer) (k : Nat) (hk : k ≤ skin.clusters.length) :
    forLoop k (bone_body skin) (List.replicate skin.clusters.length Bone.zero) =
      Except.ok ((skin.clusters.take k).map bone_of_cluster ++
        List.replicate (skin.clusters.length - k) Bone.zero) := by
  induction k with
  | zero => simp [forLoop_zero]
  | succ n ih =>
    have hn : n < skin.clusters.length := hk
    rw [forLoop_succ, ih (Nat.le_of_lt hn), ok_bind]
    have hc : skin.clusters[n]? = some skin.clusters[n] := List.getElem?_eq_getElem hn
    have hlen : ((skin.clusters.take n).map bone_of_cluster).length = n := by
      simp
      omega
    obtain ⟨r, hr⟩ : ∃ r, skin.clusters.length - n = r + 1 := ⟨skin.clusters.length - n - 1, by omega⟩
    have hr2 : skin.clusters.length - (n + 1) = r := by omega
    have hget : ∀ (b : Bone) (rest : List Bone),
        ((skin.clusters.take n).map bone_of_cluster ++ b :: rest)[n]? = some b := by
      intro b rest
      rw [List.getElem?_append_right (by omega), hlen]
      simp
    have hset : ∀ (b c : Bone) (rest : List Bone),
        ((skin.clusters.take n).map bone_of_cluster ++ b :: rest).set n c =
          (skin.clusters.take n).map bone_of_cluster ++ c :: rest := by
      intro b c rest
      rw [List.set_append_right _ _ (by omega), hlen]
      simp
    have hlt : ∀ (b : Bone) (rest : List Bone),
        n < ((skin.clusters.take n).map bone_of_cluster ++ b :: rest).length := by
      intro b rest
      simp
      omega
    simp only [bone_body, rd_eq_ok hc, ok_bind, hr, List.replicate_succ, rd_eq_ok (hget _ _),
      wr_eq_ok _ (hlt _ _), hset, hr2]
    rw [List.take_succ, hc]
    simp only [Option.toList, List.map_append, List.map_cons, List.map_nil, List.append_assoc,
      List.singleton_append, bone_of_cluster, Bone.zero]

/-- The bone loop of `process_skinned_mesh` always returns, with one bone per
cluster, in cluster order. -/
theorem bone_loop_full (skin : ufbx_skin_deformer) :
    forLoop skin.clusters.length (bone_body skin)
        (List.replicate skin.clusters.length Bone.zero) =
      Except.ok (skin.clusters.map bone_of_cluster) := by
  rw [bone_loop skin _ (Nat.le_refl _)]
  simp

theorem c_assert_ok_iff (b : Bool) (u : Unit) : c_assert b = Except.ok u ↔ b = true := by
  unfold c_assert
  cases b <;> simp

/-- The function `process_skinned_mesh` returns a mesh exactly when every
corner of every face has a vertex and their number is `3 * num_triangles`;
the mesh holds these vertices and one bone per cluster. -/
theorem process_skinned_mesh_ok_iff (tri : Triangulator) (mesh : ufbx_mesh)
    (skin : ufbx_skin_deformer) (m : Mesh) :
    process_skinned_mesh tri mesh skin = Except.ok m ↔
      ∃ out, flattened tri mesh skin mesh.num_faces = Except.ok out ∧
        out.length = mesh.num_triangles * 3 ∧
        m = { bones := skin.clusters.map bone_of_cluster, num_bones := skin.clusters.length,
              vertices := out, num_vertices := out.length } := by
  unfold process_skinned_mesh
  simp only [bind_eq_ok, bone_loop_full, Except.ok.injEq, c_assert_ok_iff, beq_iff_eq,
    exists_eq_left, Prod.exists]
  constructor
  · rintro ⟨vs, nv, hloop, _, hnv, a, ha, hm⟩
    subst ha
    rw [face_loop_ok_iff _ _ _ _ _ (Nat.zero_le _)] at hloop
    obtain ⟨out, ho, hle, hs⟩ := hloop
    simp only [Nat.zero_add, Prod.mk.injEq] at hs
    obtain ⟨hvs, hnv2⟩ := hs
    have hlen : out.length = mesh.num_triangles * 3 := by omega
    refine ⟨out, ho, hlen, ?_⟩
    rw [← hm, hvs, hnv2]
    simp [overwrite, hlen]
  · rintro ⟨out, ho, hlen, hm⟩
    refine ⟨out, out.length, ?_, (), hlen, _, rfl, hm.symm⟩
    rw [face_loop_ok_iff _ _ _ _ _ (Nat.zero_le _)]
    refine ⟨out, ho, by simp [hlen], ?_⟩
    simp [overwrite, hlen]

/-! ## The loops of `draw_mesh` -/

@[simp] theorem v_ofFn {R : Type} (f : Fin 12 → R) : (ufbx_matrix.ofFn f).v = f := by
  funext k
  fin_cases k <;> rfl

theorem mem_take_of_getElem? {α : Type} {xs : List α} {n i : Nat} {x : α}
    (hi : i < n) (hx : xs[i]? = some x) : x ∈ xs.take n := by
  have h : (xs.take n)[i]? = some x := by
    rw [List.getElem?_take_of_lt hi]
    exact hx
  exact List.getElem?_mem h

theorem mem_take_succ {α : Type} {xs : List α} {n : Nat} {x : α} (h : x ∈ xs.take n) :
    x ∈ xs.take (n + 1) := by
  obtain ⟨j, hj, hx⟩ := List.mem_take_iff_getElem.1 h
  have hj1 : j < n := Nat.lt_of_lt_of_le hj (Nat.min_le_left _ _)
  have hj2 : j < xs.length := Nat.lt_of_lt_of_le hj (Nat.min_le_right _ _)
  exact mem_take_of_getElem? (Nat.lt_succ_of_lt hj1) (hx ▸ List.getElem?_eq_getElem hj2)

/-- The bone loop of `draw_mesh` after `k` iterations. -/
theorem pose_loop (mesh : Mesh) (scene : ufbx_scene) (hr : DrawReady mesh scene) (k : Nat)
    (hk : k ≤ mesh.num_bones) :
    forLoop k (pose_body mesh scene) (List.replicate mesh.num_bones (ufbx_matrix.zero ℚ)) =
      Except.ok ((List.range k).map (skinning_matrix mesh scene) ++
        List.replicate (mesh.num_bones - k) (ufbx_matrix.zero ℚ)) := by
  induction k with
  | zero => simp [forLoop_zero]
  | succ n ih =>
    have hn : n < mesh.num_bones := hk
    have hnl : n < mesh.bones.length := Nat.lt_of_lt_of_le hn hr.bones_le
    rw [forLoop_succ, ih (Nat.le_of_lt hn), ok_bind]
    have hb : mesh.bones[n]? = some mesh.bones[n] := List.getElem?_eq_getElem hnl
    have hnode := hr.nodes_lt _ (mem_take_of_getElem? hn hb)
    have hnd : scene.nodes[mesh.bones[n].node_index]? = some scene.nodes[mesh.bones[n].node_index] :=
      List.getElem?_eq_getElem hnode
    have hsk : skinning_matrix mesh scene n =
        ufbx_matrix_mul scene.nodes[mesh.bones[n].node_index].node_to_world
          mesh.bones[n].geometry_to_bone := by
      simp [skinning_matrix, hb, hnd]
    have hlen : ((List.range n).map (skinning_matrix mesh scene)).length = n := by simp
    obtain ⟨r, hr1⟩ : ∃ r, mesh.num_bones - n = r + 1 := ⟨mesh.num_bones - n - 1, by omega⟩
    have hr2 : mesh.num_bones - (n + 1) = r := by omega
    have hlt : ∀ (b : ufbx_matrix ℚ) (rest : List (ufbx_matrix ℚ)),
        n < ((List.range n).map (skinning_matrix mesh scene) ++ b :: rest).length := by
      intro b rest
      simp
    have hset : ∀ (b c : ufbx_matrix ℚ) (rest : List (ufbx_matrix ℚ)),
        ((List.range n).map (skinning_matrix mesh scene) ++ b :: rest).set n c =
          (List.range n).map (skinning_matrix mesh scene) ++ c :: rest := by
      intro b c rest
      rw [List.set_append_right _ _ (by omega), hlen]
      simp
    simp only [pose_body, rd_eq_ok hb, rd_eq_ok hnd, ok_bind, hr1, List.replicate_succ,
      wr_eq_ok _ (hlt _ _), hset, hr2, ← hsk]
    rw [List.range_succ]
    simp only [List.map_append, List.map_cons, List.map_nil, List.append_assoc,
      List.singleton_append]

/-- The table `geometry_to_world` that the bone loop of `draw_mesh` builds. -/
theorem pose_loop_full (mesh : Mesh) (scene : ufbx_scene) (hr : DrawReady mesh scene) :
    forLoop mesh.num_bones (pose_body mesh scene)
        (List.replicate mesh.num_bones (ufbx_matrix.zero ℚ)) =
      Except.ok ((List.range mesh.num_bones).map (skinning_matrix mesh scene)) := by
  rw [pose_loop mesh scene hr _ (Nat.le_refl _)]
  simp

theorem blend_v (S : Slots (ufbx_matrix ℚ)) (w : Slots Flt) (k : Fin 12) :
    (blend S w).v k =
      w 0 * Flt.fin ((S 0).v k) + w 1 * Flt.fin ((S 1).v k) + w 2 * Flt.fin ((S 2).v k) +
        w 3 * Flt.fin ((S 3).v k) := by
  simp only [blend, v_ofFn]
  exact Fin.sum_univ_four _

/-- The slot loop of `draw_mesh` computes the blended transform. -/
theorem blend_loop (mesh : Mesh) (scene : ufbx_scene) (v : Vertex)
    (hv : ∀ i, v.bones i < mesh.num_bones) :
    forLoop MAX_WEIGHTS
        (blend_body ((List.range mesh.num_bones).map (skinning_matrix mesh scene)) v)
        (ufbx_matrix.zero Flt) =
      Except.ok (vertex_transform mesh scene v) := by
  have hg : ∀ i, rd ((List.range mesh.num_bones).map (skinning_matrix mesh scene)) (v.bones i) =
      Except.ok (skinning_matrix mesh scene (v.bones i)) := by
    intro i
    apply rd_eq_ok
    simp [List.getElem?_map, List.getElem?_range (hv i)]
  have h4 : MAX_WEIGHTS = 0 + 1 + 1 + 1 + 1 := rfl
  rw [h4]
  simp only [forLoop_succ, forLoop_zero, ok_bind, blend_body, rd4,
    show (0 : Nat) + 1 = 1 from rfl, show (1 : Nat) + 1 = 2 from rfl,
    show (2 : Nat) + 1 = 3 from rfl, show (0 : Nat) < MAX_WEIGHTS from by decide,
    show (1 : Nat) < MAX_WEIGHTS from by decide, show (2 : Nat) < MAX_WEIGHTS from by decide,
    show (3 : Nat) < MAX_WEIGHTS from by decide, dif_pos, hg]
  congr 1
  have hext : ∀ a b : ufbx_matrix Flt, a.v = b.v → a = b := by
    intro a b h
    cases a
    cases b
    have e := fun k => congrFun h k
    have e0 := e 0; have e1 := e 1; have e2 := e 2; have e3 := e 3
    have e4 := e 4; have e5 := e 5; have e6 := e 6; have e7 := e 7
    have e8 := e 8; have e9 := e 9; have e10 := e 10; have e11 := e 11
    simp only [ufbx_matrix.v] at e0 e1 e2 e3 e4 e5 e6 e7 e8 e9 e10 e11
    simp [*]
  apply hext
  funext k
  simp only [vertex_transform, blend_v, matrix_add, v_ofFn, ufbx_matrix.zero]
  simp only [Flt.mul_comm_flt (Flt.fin _) _, zero_add]
  rfl

/-- The vertex loop of `draw_mesh` after `k` iterations. -/
theorem vertex_loop (mesh : Mesh) (scene : ufbx_scene) (hr : DrawReady mesh scene) (k : Nat)
    (hk : k ≤ mesh.num_vertices) :
    forLoop k
        (vertex_body mesh ((List.range mesh.num_bones).map (skinning_matrix mesh scene))) [] =
      Except.ok ((mesh.vertices.take k).map (emitted_spec mesh scene)) := by
  induction k with
  | zero => simp [forLoop_zero]
  | succ n ih =>
    have hn : n < mesh.num_vertices := hk
    have hnl : n < mesh.vertices.length := Nat.lt_of_lt_of_le hn hr.vertices_le
    have hv : mesh.vertices[n]? = some mesh.vertices[n] := List.getElem?_eq_getElem hnl
    have hs := hr.slots_lt _ (mem_take_of_getElem? hn hv)
    rw [forLoop_succ, ih (Nat.le_of_lt hn), ok_bind]
    simp only [vertex_body, rd_eq_ok hv, ok_bind, blend_loop mesh scene _ hs]
    rw [List.take_succ, hv]
    simp only [Option.toList, List.map_append, List.map_cons, List.map_nil, emitted_spec]

/-- The stream `draw_mesh` emits when all its array accesses are in range. -/
theorem draw_mesh_eq (mesh : Mesh) (scene : ufbx_scene) (hr : DrawReady mesh scene) :
    draw_mesh mesh scene =
      Except.ok ((mesh.vertices.take mesh.num_vertices).map (emitted_spec mesh scene)) := by
  unfold draw_mesh
  simp only [pose_loop_full mesh scene hr, ok_bind]
  exact vertex_loop mesh scene hr _ (Nat.le_refl _)

/-- When the first loop of `get_skinned_vertex` returns, the influences it read are stored. -/
theorem gather_reads (skin : ufbx_skin_deformer) (sv : ufbx_skin_vertex) (s0 : GatherState)
    (n : Nat) (s : GatherState)
    (h : forLoop n (gather_body skin sv) s0 = Except.ok s) :
    ∀ i, i < n → sv.weight_begin + i < skin.weights.length := by
  induction n generalizing s with
  | zero =>
    intro i hi
    exact absurd hi (Nat.not_lt_zero i)
  | succ k ih =>
    rw [forLoop_succ, bind_eq_ok] at h
    obtain ⟨s1, h1, h2⟩ := h
    simp only [gather_body, bind_eq_ok] at h2
    obtain ⟨sw, hsw, _⟩ := h2
    have hk : sv.weight_begin + k < skin.weights.length := by
      have := rd_ok_iff.1 hsw
      exact (List.getElem?_eq_some_iff.1 this).1
    intro i hi
    rcases Nat.lt_succ_iff_lt_or_eq.1 hi with hlt | heq
    · exact ih s1 h1 i hlt
    · exact heq ▸ hk

/-- A vertex that `get_skinned_vertex` returns is the vertex `skinned_spec`
describes, of a corner whose accesses are in range. -/
theorem get_skinned_vertex_ok (mesh : ufbx_mesh) (skin : ufbx_skin_deformer) (index : Nat)
    (v : Vertex) (h : get_skinned_vertex mesh skin index = Except.ok v) :
    ∃ position normal texCoord sv,
      CornerAt mesh skin index position normal texCoord sv
        (fun i => stored skin (sv.weight_begin + i)) ∧
      v = skinned_spec position normal texCoord (fun i => stored skin (sv.weight_begin + i))
        (taken sv.num_weights) := by
  have h0 := h
  unfold get_skinned_vertex at h0
  simp only [bind_eq_ok, taken_eq_ite, Prod.exists] at h0
  obtain ⟨position, hp, normal, hn, texCoord, ht, vertex, hv, sv, hsv, v1, t, hg, _⟩ := h0
  have hreads := gather_reads skin sv _ _ _ hg
  have hc : CornerAt mesh skin index position normal texCoord sv
      (fun i => stored skin (sv.weight_begin + i)) := by
    refine ⟨hp, hn, ht, ⟨vertex, rd_ok_iff.1 hv, rd_ok_iff.1 hsv⟩, ?_⟩
    intro i hi
    simp [stored, List.getD_eq_getElem?_getD, List.getElem?_eq_getElem (hreads i hi)]
  refine ⟨position, normal, texCoord, sv, hc, ?_⟩
  have hspec := get_skinned_vertex_eq mesh skin index position normal texCoord vertex sv _
    hp hn ht (rd_ok_iff.1 hv) (rd_ok_iff.1 hsv) hc.influences
  exact Except.ok.inj (h.symm.trans hspec)

/-! ## Theorems about `get_skinned_vertex` -/

/-- The vertex `get_skinned_vertex` returns at a corner whose accesses are in range. -/
theorem get_skinned_vertex_at (mesh : ufbx_mesh) (skin : ufbx_skin_deformer) (index : Nat)
    (position normal : ufbx_vec3 ℚ) (texCoord : ufbx_vec2 ℚ) (sv : ufbx_skin_vertex)
    (infl : Nat → ufbx_skin_weight)
    (h : CornerAt mesh skin index position normal texCoord sv infl) :
    get_skinned_vertex mesh skin index =
      Except.ok (skinned_spec position normal texCoord infl (taken sv.num_weights)) := by
  obtain ⟨vertex, hv, hsv⟩ := h.raw_vertex
  exact get_skinned_vertex_eq mesh skin index position normal texCoord vertex sv infl
    h.position_eq h.normal_eq h.texCoord_eq hv hsv h.influences

theorem populated_sum_eq (v : Vertex) (m : Nat) :
    populated_sum v m =
      (if 0 < m then v.weights 0 else 0) + (if 1 < m then v.weights 1 else 0) +
        (if 2 < m then v.weights 2 else 0) + (if 3 < m then v.weights 3 else 0) := by
  unfold populated_sum
  exact Fin.sum_univ_four _

/-- The populated weights of the specified vertex sum to 1 when the taken
weights have a nonzero sum. -/
theorem populated_sum_skinned_spec (position normal : ufbx_vec3 ℚ) (texCoord : ufbx_vec2 ℚ)
    (infl : Nat → ufbx_skin_weight) (m : Nat) (hm : m ≤ MAX_WEIGHTS)
    (hsum : taken_total infl m ≠ 0) :
    populated_sum (skinned_spec position normal texCoord infl m) m = Flt.fin 1 := by
  rw [populated_sum_eq]
  have h4 : m = 0 ∨ m = 1 ∨ m = 2 ∨ m = 3 ∨ m = 4 := by
    have : m ≤ 4 := hm
    omega
  rcases h4 with h | h | h | h | h <;> subst h
  · exact absurd rfl hsum
  all_goals
    simp only [skinned_spec, Flt.divq_fin _ _ hsum]
    simp only [taken_total] at hsum ⊢
    norm_num
    have h3 : ((3 : Fin MAX_WEIGHTS) : Nat) = 3 := rfl
    simp only [zero_add] at hsum
    try simp only [h3]
    try simp only [div_add_div_same]
    exact div_self hsum

/-- The populated weights of the vertex built at a corner sum to 1 when the
taken weights have a nonzero sum. -/
theorem populated_sum_at (mesh : ufbx_mesh) (skin : ufbx_skin_deformer) (index : Nat)
    (position normal : ufbx_vec3 ℚ) (texCoord : ufbx_vec2 ℚ) (sv : ufbx_skin_vertex)
    (infl : Nat → ufbx_skin_weight)
    (h : CornerAt mesh skin index position normal texCoord sv infl)
    (hsum : taken_total infl (taken sv.num_weights) ≠ 0) :
    ∃ v, get_skinned_vertex mesh skin index = Except.ok v ∧
      populated_sum v (taken sv.num_weights) = Flt.fin 1 :=
  ⟨_, get_skinned_vertex_at mesh skin index position normal texCoord sv infl h,
    populated_sum_skinned_spec position normal texCoord infl _ (taken_le _) hsum⟩

/-- The accesses at a corner of a `flat_mesh`, for a skin that has the raw
vertex and stores the influences that are taken. -/
theorem corner_of_flat_mesh (p : ufbx_vec3 ℚ) (corners : Nat) (faces : List ufbx_face)
    (nt : Nat) (skin : ufbx_skin_deformer) (index : Nat) (sv : ufbx_skin_vertex)
    (hi : index < corners) (hsv : skin.vertices[index]? = some sv)
    (hw : sv.weight_begin + taken sv.num_weights ≤ skin.weights.length) :
    CornerAt (flat_mesh p corners faces nt) skin index p ⟨0, 0, 1⟩ ⟨0, 0⟩ sv
      (fun i => stored skin (sv.weight_begin + i)) := by
  have hrep : ∀ n : Nat, (List.replicate corners n)[index]? = some n := by
    intro n
    simp [List.getElem?_replicate, hi]
  refine ⟨?_, ?_, ?_, ⟨index, ?_, hsv⟩, ?_⟩
  · simp [ufbx_get_vertex_vec3, flat_mesh, const_vec3, rd, hrep, ok_bind]
  · simp [ufbx_get_vertex_vec3, flat_mesh, const_vec3, rd, hrep, ok_bind]
  · simp [ufbx_get_vertex_vec2, flat_mesh, const_vec2, rd, hrep, ok_bind]
  · simp [flat_mesh, List.getElem?_range hi]
  · intro i hi2
    have hlt : sv.weight_begin + i < skin.weights.length := by omega
    simp [stored, List.getD_eq_getElem?_getD, List.getElem?_eq_getElem hlt]

/-- The accesses at corner 0 of the one-triangle mesh. -/
theorem corner_zero (p : ufbx_vec3 ℚ) (skin : ufbx_skin_deformer) (sv : ufbx_skin_vertex)
    (hsv : skin.vertices[0]? = some sv)
    (hw : sv.weight_begin + taken sv.num_weights ≤ skin.weights.length) :
    CornerAt (triangle_mesh p) skin 0 p ⟨0, 0, 1⟩ ⟨0, 0⟩ sv
      (fun i => stored skin (sv.weight_begin + i)) :=
  corner_of_flat_mesh p 3 _ 1 skin 0 sv (by decide) hsv hw

/-- C1 (amended): for every corner index and skin deformer whose accesses are in
range and whose taken weights (the first `min num_weights 4` of the raw vertex)
have a nonzero sum, `get_skinned_vertex` returns a vertex whose populated
weights, slots `0 .. min num_weights 4 - 1`, sum to exactly 1, also when the
source lists more than 4 influences. -/
theorem weights_sum_to_one (mesh : ufbx_mesh) (skin : ufbx_skin_deformer) (index : Nat)
    (position normal : ufbx_vec3 ℚ) (texCoord : ufbx_vec2 ℚ) (sv : ufbx_skin_vertex)
    (infl : Nat → ufbx_skin_weight)
    (h : CornerAt mesh skin index position normal texCoord sv infl)
    (hsum : taken_total infl (min sv.num_weights MAX_WEIGHTS) ≠ 0) :
    ∃ v, get_skinned_vertex mesh skin index = Except.ok v ∧
      populated_sum v (min sv.num_weights MAX_WEIGHTS) = Flt.fin 1 :=
  populated_sum_at mesh skin index position normal texCoord sv infl h hsum

/-- The amended C1 at a raw vertex that lists five influences, of weights
3, 1, 2, 2, 5: the four taken weights sum to 8 and the populated weights of the
vertex to 1. -/
theorem weights_sum_to_one_witness :
    taken_total (fun i => stored five_weight_skin (0 + i)) (min 5 MAX_WEIGHTS) = 8 ∧
    ∃ v, get_skinned_vertex (triangle_mesh ⟨1, 0, 0⟩) five_weight_skin 0 = Except.ok v ∧
      populated_sum v (min 5 MAX_WEIGHTS) = Flt.fin 1 := by
  have ht : taken_total (fun i => stored five_weight_skin (0 + i)) (min 5 MAX_WEIGHTS) = 8 := by
    simp [taken_total, stored, five_weight_skin]
    norm_num
  refine ⟨ht, ?_⟩
  exact weights_sum_to_one (triangle_mesh ⟨1, 0, 0⟩) five_weight_skin 0 ⟨1, 0, 0⟩ ⟨0, 0, 1⟩
    ⟨0, 0⟩ ⟨0, 5⟩ (fun i => stored five_weight_skin (0 + i))
    (corner_zero ⟨1, 0, 0⟩ five_weight_skin ⟨0, 5⟩ rfl (by decide)) (by rw [ht]; norm_num)

/-- C1 as stated fails. The raw vertex 0 of `late_weight_skin` lists five
influences, the fifth with the nonzero weight 1, yet the four taken weights are
all 0; the raw vertex 0 of `cancelling_skin` lists the two influences of
weights 1 and -1. In both cases the taken weights sum to zero, every populated
weight of the returned vertex is a division by that zero sum, and the populated
weights do not sum to 1. -/
theorem weights_sum_counterexample :
    (late_weight_skin.vertices[0]? = some ⟨0, 5⟩ ∧
      (∃ sw, late_weight_skin.weights[0 + 4]? = some sw ∧ sw.weight ≠ 0) ∧
      ∃ v, get_skinned_vertex (triangle_mesh ⟨1, 0, 0⟩) late_weight_skin 0 = Except.ok v ∧
        (∀ i : Fin MAX_WEIGHTS, v.weights i = Flt.nonfinite) ∧
        populated_sum v (min 5 MAX_WEIGHTS) ≠ Flt.fin 1) ∧
    (cancelling_skin.vertices[0]? = some ⟨0, 2⟩ ∧
      (∃ sw, cancelling_skin.weights[0 + 0]? = some sw ∧ sw.weight ≠ 0) ∧
      ∃ v, get_skinned_vertex (triangle_mesh ⟨1, 0, 0⟩) cancelling_skin 0 = Except.ok v ∧
        v.weights 0 = Flt.nonfinite ∧ v.weights 1 = Flt.nonfinite ∧
        populated_sum v (min 2 MAX_WEIGHTS) ≠ Flt.fin 1) := by
  constructor
  · have ht : taken_total (fun i => stored late_weight_skin i) (min 5 MAX_WEIGHTS) = 0 := by
      simp [taken_total, stored, late_weight_skin]
    have ht2 : taken_total (fun i => stored late_weight_skin i) (taken 5) = 0 := ht
    refine ⟨rfl, ⟨⟨0, 1⟩, rfl, by simp⟩, _,
      get_skinned_vertex_at _ _ _ _ _ _ _ _
        (corner_zero ⟨1, 0, 0⟩ late_weight_skin ⟨0, 5⟩ rfl (by decide)), ?_, ?_⟩
    · intro i
      have hi : i.val < taken 5 := i.isLt
      simp [skinned_spec, ht2, hi]
    · rw [populated_sum_eq]
      simp [skinned_spec, ht, taken]
  · have ht : taken_total (fun i => stored cancelling_skin i) (min 2 MAX_WEIGHTS) = 0 := by
      simp [taken_total, stored, cancelling_skin]
    refine ⟨rfl, ⟨⟨0, 1⟩, rfl, by simp⟩, _,
      get_skinned_vertex_at _ _ _ _ _ _ _ _
        (corner_zero ⟨1, 0, 0⟩ cancelling_skin ⟨0, 2⟩ rfl (by decide)), ?_, ?_, ?_⟩
    · simp [skinned_spec, ht, taken]
    · simp [skinned_spec, ht, taken]
    · rw [populated_sum_eq]
      simp [skinned_spec, ht, taken]

/-- C9: for every corner index whose accesses are in range and whose raw vertex
has a nonzero sum over the first `m = min n 4` of its `n` stored influences,
`get_skinned_vertex` returns a vertex in which every slot `i < m` holds the
cluster index of the influence stored at position `weight_begin + i` and that
influence's weight divided by the sum of the first `m` weights, every slot
`m <= i < 4` holds weight 0 and bone 0, and which stays the same when the skin
is changed anywhere but in these first four positions. -/
theorem first_influences_in_stored_order (mesh : ufbx_mesh) (skin : ufbx_skin_deformer)
    (index : Nat) (position normal : ufbx_vec3 ℚ) (texCoord : ufbx_vec2 ℚ)
    (sv : ufbx_skin_vertex) (infl : Nat → ufbx_skin_weight)
    (h : CornerAt mesh skin index position normal texCoord sv infl)
    (hsum : taken_total infl (min sv.num_weights MAX_WEIGHTS) ≠ 0) :
    ∃ v, get_skinned_vertex mesh skin index = Except.ok v ∧
      (∀ i : Fin MAX_WEIGHTS, i.val < min sv.num_weights MAX_WEIGHTS →
        skin.weights[sv.weight_begin + i.val]? = some (infl i.val) ∧
        v.bones i = (infl i.val).cluster_index ∧
        v.weights i =
          Flt.fin ((infl i.val).weight / taken_total infl (min sv.num_weights MAX_WEIGHTS))) ∧
      (∀ i : Fin MAX_WEIGHTS, min sv.num_weights MAX_WEIGHTS ≤ i.val →
        v.weights i = 0 ∧ v.bones i = 0) ∧
      (∀ skin2 : ufbx_skin_deformer, skin2.vertices = skin.vertices →
        (∀ i, i < MAX_WEIGHTS →
          skin2.weights[sv.weight_begin + i]? = skin.weights[sv.weight_begin + i]?) →
        get_skinned_vertex mesh skin2 index = Except.ok v) := by
  refine ⟨_, get_skinned_vertex_at mesh skin index position normal texCoord sv infl h, ?_, ?_, ?_⟩
  · intro i hi
    have hi2 : i.val < taken sv.num_weights := hi
    refine ⟨h.influences i.val hi2, ?_, ?_⟩
    · simp [skinned_spec, hi2]
    · have hs : taken_total infl (taken sv.num_weights) ≠ 0 := hsum
      simp [skinned_spec, hi2, hs]
      rfl
  · intro i hi
    have hi2 : ¬ i.val < taken sv.num_weights := Nat.not_lt.2 hi
    simp [skinned_spec, hi2]
  · intro skin2 hv hw
    apply get_skinned_vertex_at
    obtain ⟨vertex, h1, h2⟩ := h.raw_vertex
    refine ⟨h.position_eq, h.normal_eq, h.texCoord_eq, ⟨vertex, h1, by rw [hv]; exact h2⟩, ?_⟩
    intro i hi
    rw [hw i (Nat.lt_of_lt_of_le hi (taken_le _))]
    exact h.influences i hi

/-- C9 at a raw vertex that lists the five influences (1, 3), (0, 1), (1, 2),
(0, 2), (1, 5) as (cluster, weight): the first four are taken, in this order,
with the weights 3/8, 1/8, 2/8, 2/8. -/
theorem first_influences_in_stored_order_witness :
    ∃ v, get_skinned_vertex (triangle_mesh ⟨1, 0, 0⟩) five_weight_skin 0 = Except.ok v ∧
      (v.bones 0 = 1 ∧ v.bones 1 = 0 ∧ v.bones 2 = 1 ∧ v.bones 3 = 0) ∧
      (v.weights 0 = Flt.fin (3 / 8) ∧ v.weights 1 = Flt.fin (1 / 8) ∧
        v.weights 2 = Flt.fin (2 / 8) ∧ v.weights 3 = Flt.fin (2 / 8)) := by
  have ht : taken_total (fun i => stored five_weight_skin (0 + i)) (min 5 MAX_WEIGHTS) = 8 := by
    simp [taken_total, stored, five_weight_skin]
    norm_num
  obtain ⟨v, hv, hslots, _, _⟩ :=
    first_influences_in_stored_order (triangle_mesh ⟨1, 0, 0⟩) five_weight_skin 0 ⟨1, 0, 0⟩
      ⟨0, 0, 1⟩ ⟨0, 0⟩ ⟨0, 5⟩ (fun i => stored five_weight_skin (0 + i))
      (corner_zero ⟨1, 0, 0⟩ five_weight_skin ⟨0, 5⟩ rfl (by decide)) (by rw [ht]; norm_num)
  rw [ht] at hslots
  have h0 := hslots 0 (by decide)
  have h1 := hslots 1 (by decide)
  have h2 := hslots 2 (by decide)
  have h3 := hslots 3 (by decide)
  exact ⟨v, hv, ⟨h0.2.1, h1.2.1, h2.2.1, h3.2.1⟩, ⟨h0.2.2, h1.2.2, h2.2.2, h3.2.2⟩⟩

/-- C6 (amended): `get_skinned_vertex` has no failure for a zero weight sum. At
every corner whose accesses are in range it returns a vertex; when the raw vertex
has no influence, all four weights and bones of that vertex are 0; when it has
influences and the taken weights sum to zero, every populated weight of the
returned vertex is the non-finite result of dividing by that zero sum. -/
theorem zero_sum_is_divided (mesh : ufbx_mesh) (skin : ufbx_skin_deformer)
    (index : Nat) (position normal : ufbx_vec3 ℚ) (texCoord : ufbx_vec2 ℚ)
    (sv : ufbx_skin_vertex) (infl : Nat → ufbx_skin_weight)
    (h : CornerAt mesh skin index position normal texCoord sv infl) :
    ∃ v, get_skinned_vertex mesh skin index = Except.ok v ∧
      (sv.num_weights = 0 → ∀ i, v.weights i = 0 ∧ v.bones i = 0) ∧
      (sv.num_weights ≠ 0 → taken_total infl (min sv.num_weights MAX_WEIGHTS) = 0 →
        ∀ i : Fin MAX_WEIGHTS, i.val < min sv.num_weights MAX_WEIGHTS →
          v.weights i = Flt.nonfinite) := by
  refine ⟨_, get_skinned_vertex_at mesh skin index position normal texCoord sv infl h, ?_, ?_⟩
  · intro h0 i
    simp [skinned_spec, taken, h0]
  · intro _ ht i hi
    have hi2 : i.val < taken sv.num_weights := hi
    have ht2 : taken_total infl (taken sv.num_weights) = 0 := ht
    simp [skinned_spec, hi2, ht2]

/-- The amended C6 at a raw vertex with two influences of weight 0: a vertex
is returned, and its two populated weights are non-finite. -/
theorem zero_sum_is_divided_witness :
    ∃ v, get_skinned_vertex (triangle_mesh ⟨1, 0, 0⟩) zero_sum_skin 0 = Except.ok v ∧
      v.weights 0 = Flt.nonfinite ∧ v.weights 1 = Flt.nonfinite := by
  obtain ⟨v, hv, _, hz⟩ :=
    zero_sum_is_divided (triangle_mesh ⟨1, 0, 0⟩) zero_sum_skin 0 ⟨1, 0, 0⟩ ⟨0, 0, 1⟩ ⟨0, 0⟩
      ⟨0, 2⟩ (fun i => stored zero_sum_skin (0 + i))
      (corner_zero ⟨1, 0, 0⟩ zero_sum_skin ⟨0, 2⟩ rfl (by decide))
  have ht : taken_total (fun i => stored zero_sum_skin (0 + i)) (min 2 MAX_WEIGHTS) = 0 := by
    simp [taken_total, stored, zero_sum_skin]
  exact ⟨v, hv, hz (by decide) ht 0 (by decide), hz (by decide) ht 1 (by decide)⟩

/-! ## Theorems about `process_skinned_mesh` -/

theorem corner_vertices_returns (mesh : ufbx_mesh) (skin : ufbx_skin_deformer) (ti : List Nat)
    (k : Nat)
    (h : ∀ i, i < k → ∃ index v, ti[i]? = some index ∧
      get_skinned_vertex mesh skin index = Except.ok v) :
    ∃ out, corner_vertices mesh skin ti k = Except.ok out := by
  induction k with
  | zero => exact ⟨[], rfl⟩
  | succ n ih =>
    obtain ⟨out, ho⟩ := ih (fun i hi => h i (Nat.lt_succ_of_lt hi))
    obtain ⟨index, v, hi, hv⟩ := h n (Nat.lt_succ_self n)
    exact ⟨out ++ [v], by simp only [corner_vertices, ho, ok_bind, rd_eq_ok hi, hv]⟩

theorem flattened_returns (tri : Triangulator) (mesh : ufbx_mesh) (skin : ufbx_skin_deformer)
    (f : Nat) (hf : f ≤ mesh.faces.length)
    (h : ∀ face, face ∈ mesh.faces.take f →
      ∀ i, i < (triangulated tri mesh face).num_tris * 3 →
        ∃ index v, (triangulated tri mesh face).tri_indices[i]? = some index ∧
          get_skinned_vertex mesh skin index = Except.ok v) :
    ∃ out, flattened tri mesh skin f = Except.ok out := by
  induction f with
  | zero => exact ⟨[], rfl⟩
  | succ n ih =>
    have hn : n < mesh.faces.length := hf
    have hface : mesh.faces[n]? = some mesh.faces[n] := List.getElem?_eq_getElem hn
    obtain ⟨out, ho⟩ := ih (Nat.le_of_lt hn) (fun face hm => h face (mem_take_succ hm))
    obtain ⟨o2, ho2⟩ := corner_vertices_returns mesh skin _ _
      (h mesh.faces[n] (mem_take_of_getElem? (Nat.lt_succ_self n) hface))
    exact ⟨out ++ o2, by simp only [flattened, ho, ok_bind, rd_eq_ok hface, ho2]⟩

/-- The function `process_skinned_mesh` returns a mesh when every face is
present, every reported corner has a vertex, and the reported triangles are
`num_triangles` in all. -/
theorem process_skinned_mesh_returns (tri : Triangulator) (mesh : ufbx_mesh)
    (skin : ufbx_skin_deformer) (hfaces : mesh.num_faces ≤ mesh.faces.length)
    (hcorners : CornersReady tri mesh skin)
    (hcount : reported_triangles tri mesh mesh.num_faces = mesh.num_triangles) :
    ∃ out, flattened tri mesh skin mesh.num_faces = Except.ok out ∧
      process_skinned_mesh tri mesh skin =
        Except.ok { bones := skin.clusters.map bone_of_cluster,
                    num_bones := skin.clusters.length, vertices := out,
                    num_vertices := out.length } := by
  obtain ⟨out, ho⟩ := flattened_returns tri mesh skin mesh.num_faces hfaces hcorners
  refine ⟨out, ho, ?_⟩
  rw [process_skinned_mesh_ok_iff]
  refine ⟨out, ho, ?_, rfl⟩
  rw [length_flattened tri mesh skin _ out ho, hcount, Nat.mul_comm]

/-- The counts of a mesh that `process_skinned_mesh` returns. -/
theorem process_skinned_mesh_counts (tri : Triangulator) (mesh : ufbx_mesh)
    (skin : ufbx_skin_deformer) (m : Mesh)
    (h : process_skinned_mesh tri mesh skin = Except.ok m) :
    m.num_vertices = 3 * mesh.num_triangles ∧ m.vertices.length = m.num_vertices ∧
      m.num_vertices = 3 * reported_triangles tri mesh mesh.num_faces := by
  obtain ⟨out, ho, hlen, hm⟩ := (process_skinned_mesh_ok_iff tri mesh skin m).1 h
  subst hm
  refine ⟨?_, rfl, length_flattened tri mesh skin _ out ho⟩
  simp only [hlen, Nat.mul_comm]

/-- A mesh whose faces all have two triangles has `2 * f` triangles in its first `f` faces. -/
theorem reported_triangles_quads (tri : Triangulator) (mesh : ufbx_mesh) (f : Nat)
    (h : ∀ face_ix, face_ix < f → face_triangles tri mesh face_ix = 2) :
    reported_triangles tri mesh f = 2 * f := by
  unfold reported_triangles
  rw [Finset.sum_congr rfl (fun i hi => h i (Finset.mem_range.1 hi))]
  simp [Nat.mul_comm]

/-- C2: `process_skinned_mesh` returns a mesh only when the number of vertices
it emitted is `3 * num_triangles`; the returned `num_vertices` (the number of
vertices in the returned buffer) is then exactly 3 times the sum over the faces
of the triangle counts that triangulation reported, and `6 * F` for a mesh of
`F` faces of two triangles each. When three times the reported triangles is
more or less than `3 * num_triangles`, no mesh is returned. -/
theorem vertex_count_is_exact (tri : Triangulator) (mesh : ufbx_mesh)
    (skin : ufbx_skin_deformer) :
    (∀ m, process_skinned_mesh tri mesh skin = Except.ok m →
      m.num_vertices = 3 * mesh.num_triangles ∧
      m.vertices.length = m.num_vertices ∧
      m.num_vertices = 3 * reported_triangles tri mesh mesh.num_faces ∧
      ((∀ face_ix, face_ix < mesh.num_faces → face_triangles tri mesh face_ix = 2) →
        m.num_vertices = 6 * mesh.num_faces)) ∧
    (3 * reported_triangles tri mesh mesh.num_faces ≠ 3 * mesh.num_triangles →
      ∃ e, process_skinned_mesh tri mesh skin = Except.error e) := by
  constructor
  · intro m hm
    obtain ⟨h1, h2, h3⟩ := process_skinned_mesh_counts tri mesh skin m hm
    refine ⟨h1, h2, h3, ?_⟩
    intro hq
    rw [h3, reported_triangles_quads tri mesh _ hq]
    omega
  · intro hne
    cases hres : process_skinned_mesh tri mesh skin with
    | error e => exact ⟨e, rfl⟩
    | ok m =>
      obtain ⟨h1, _, h3⟩ := process_skinned_mesh_counts tri mesh skin m hres
      exact absurd (h3.symm.trans h1) hne

/-- C8: for every skin deformer with `n` clusters, the mesh returned by
`process_skinned_mesh` has `num_bones = n` and `n` bones, and its bone `i` has
the `typed_id` of the node of cluster `i` as `node_index` and the matrix
`geometry_to_bone` of cluster `i`, entry for entry. -/
theorem bones_follow_clusters (tri : Triangulator) (mesh : ufbx_mesh)
    (skin : ufbx_skin_deformer) (m : Mesh)
    (h : process_skinned_mesh tri mesh skin = Except.ok m) :
    m.num_bones = skin.clusters.length ∧ m.bones.length = skin.clusters.length ∧
      ∀ (i : Nat) (c : ufbx_skin_cluster), skin.clusters[i]? = some c →
        ∃ b : Bone, m.bones[i]? = some b ∧ b.node_index = c.bone_node.typed_id ∧
          b.geometry_to_bone = c.geometry_to_bone := by
  obtain ⟨out, _, _, hm⟩ := (process_skinned_mesh_ok_iff tri mesh skin m).1 h
  subst hm
  refine ⟨rfl, by simp, ?_⟩
  intro i c hc
  exact ⟨bone_of_cluster c, by simp [List.getElem?_map, hc], rfl, rfl⟩

/-- C7 (amended): a face for which triangulation yields 0 triangles is skipped:
it adds no vertex, and it does not make `process_skinned_mesh` fail. For every
mesh, with or without such a face, whose faces are present, whose reported
corners have vertices and whose reported triangles are `num_triangles` in all,
`process_skinned_mesh` returns a mesh, and its vertices are those of the faces
in order. -/
theorem zero_triangle_face_is_skipped (tri : Triangulator) (mesh : ufbx_mesh)
    (skin : ufbx_skin_deformer) (hfaces : mesh.num_faces ≤ mesh.faces.length)
    (hcorners : CornersReady tri mesh skin)
    (hcount : reported_triangles tri mesh mesh.num_faces = mesh.num_triangles) :
    ∃ m out, process_skinned_mesh tri mesh skin = Except.ok m ∧
      flattened tri mesh skin mesh.num_faces = Except.ok out ∧
      m.vertices = out ∧ m.num_vertices = out.length ∧
      ∀ f, f < mesh.num_faces → face_triangles tri mesh f = 0 →
        flattened tri mesh skin (f + 1) = flattened tri mesh skin f := by
  obtain ⟨out, ho, hm⟩ := process_skinned_mesh_returns tri mesh skin hfaces hcorners hcount
  refine ⟨_, out, hm, ho, rfl, rfl, ?_⟩
  intro f hf h0
  have hfl : f < mesh.faces.length := Nat.lt_of_lt_of_le hf hfaces
  have hface : mesh.faces[f]? = some mesh.faces[f] := List.getElem?_eq_getElem hfl
  have hz : (triangulated tri mesh mesh.faces[f]).num_tris = 0 := by
    simpa [face_triangles, hface] using h0
  simp only [flattened, rd_eq_ok hface, ok_bind, hz, Nat.zero_mul, corner_vertices]
  cases flattened tri mesh skin f with
  | error e => rfl
  | ok o => simp [ok_bind]

/-! ## The example inputs -/

theorem length_fan (b n : Nat) :
    ((List.range n).flatMap (fun i => [b, b + i + 1, b + i + 2])).length = n * 3 := by
  induction n with
  | zero => rfl
  | succ k ih =>
    rw [List.range_succ, List.flatMap_append, List.length_append, ih]
    simp
    omega

/-- The fan triangulation of the faces of a `flat_mesh` reports corners that
have vertices, when the faces lie within the corners and the skin has every raw
vertex with the influences that are taken. -/
theorem corners_ready_flat (p : ufbx_vec3 ℚ) (corners : Nat) (faces : List ufbx_face)
    (nt : Nat) (skin : ufbx_skin_deformer)
    (hskin : ∀ index, index < corners → ∃ sv, skin.vertices[index]? = some sv ∧
      sv.weight_begin + taken sv.num_weights ≤ skin.weights.length)
    (hfaces : ∀ face, face ∈ faces → face.index_begin + face.num_indices ≤ corners) :
    CornersReady fan_triangulate (flat_mesh p corners faces nt) skin := by
  intro face hface i hi
  have hmem : face ∈ faces := List.mem_of_mem_take hface
  have hle := hfaces face hmem
  unfold triangulated fan_triangulate at hi ⊢
  by_cases h3 : face.num_indices < 3
  · simp [h3] at hi
  · simp only [h3, if_false] at hi ⊢
    have hlen := length_fan face.index_begin (face.num_indices - 2)
    have hilt : i < ((List.range (face.num_indices - 2)).flatMap
        (fun i => [face.index_begin, face.index_begin + i + 1, face.index_begin + i + 2])).length := by
      rw [hlen]
      exact hi
    have hget := List.getElem?_eq_getElem hilt
    have hin := List.getElem_mem hilt
    obtain ⟨a, ha, hx⟩ := List.mem_flatMap.1 hin
    have ha2 : a < face.num_indices - 2 := List.mem_range.1 ha
    have hbound : ((List.range (face.num_indices - 2)).flatMap
        (fun i => [face.index_begin, face.index_begin + i + 1, face.index_begin + i + 2]))[i] <
          corners := by
      simp only [List.mem_cons, List.mem_singleton, List.not_mem_nil, or_false] at hx
      rcases hx with hx | hx | hx <;> rw [hx] <;> omega
    obtain ⟨sv, hsv, hw⟩ := hskin _ hbound
    exact ⟨_, _, hget, get_skinned_vertex_at _ _ _ _ _ _ _ _
      (corner_of_flat_mesh p corners faces nt skin _ sv hbound hsv hw)⟩

/-- The skin `rigid_skin n` has the raw vertices below `n`, each with its influence. -/
theorem rigid_skin_vertices (n : Nat) :
    ∀ index, index < n → ∃ sv, (rigid_skin n).vertices[index]? = some sv ∧
      sv.weight_begin + taken sv.num_weights ≤ (rigid_skin n).weights.length := by
  intro index hi
  refine ⟨⟨index, 1⟩, by simp [rigid_skin, List.getElem?_map, List.getElem?_range hi], ?_⟩
  simp only [rigid_skin, List.length_replicate, taken]
  omega

/-- C2 at a mesh of one quad: the fan triangulation reports two triangles, and
the mesh that is returned has 6 vertices. -/
theorem vertex_count_is_exact_witness :
    ∃ m, process_skinned_mesh fan_triangulate (quad_mesh ⟨1, 0, 0⟩) (rigid_skin 4) =
        Except.ok m ∧ m.num_vertices = 6 ∧ m.vertices.length = 6 := by
  obtain ⟨out, _, hm⟩ := process_skinned_mesh_returns fan_triangulate (quad_mesh ⟨1, 0, 0⟩)
    (rigid_skin 4) (Nat.le_refl _)
    (corners_ready_flat _ 4 _ 2 _ (rigid_skin_vertices 4) (by simp))
    (by simp [reported_triangles, face_triangles, quad_mesh, flat_mesh, triangulated,
      fan_triangulate])
  obtain ⟨_, h2, _, h4⟩ :=
    (vertex_count_is_exact fan_triangulate (quad_mesh ⟨1, 0, 0⟩) (rigid_skin 4)).1 _ hm
  have h6 := h4 (by
    intro face_ix hlt
    have h0 : face_ix = 0 := by
      simp only [quad_mesh, flat_mesh, List.length_singleton] at hlt
      omega
    subst h0
    simp [face_triangles, quad_mesh, flat_mesh, triangulated, fan_triangulate])
  refine ⟨_, hm, ?_, ?_⟩
  · simpa [quad_mesh, flat_mesh] using h6
  · rw [h2]
    simpa [quad_mesh, flat_mesh] using h6

/-- C8 at the one-triangle mesh and a skin of two clusters, on the nodes 0 and
1: the mesh that is returned has two bones, with the node indices 0 and 1 and
the clusters' matrices. -/
theorem bones_follow_clusters_witness :
    ∃ m, process_skinned_mesh fan_triangulate (triangle_mesh ⟨1, 0, 0⟩) (rigid_skin 3) =
        Except.ok m ∧ m.num_bones = 2 ∧
      (∃ b : Bone, m.bones[0]? = some b ∧ b.node_index = 0 ∧
        b.geometry_to_bone = ufbx_identity_matrix) ∧
      (∃ b : Bone, m.bones[1]? = some b ∧ b.node_index = 1 ∧
        b.geometry_to_bone = ufbx_identity_matrix) := by
  obtain ⟨out, _, hm⟩ := process_skinned_mesh_returns fan_triangulate
    (triangle_mesh ⟨1, 0, 0⟩) (rigid_skin 3) (Nat.le_refl _)
    (corners_ready_flat _ 3 _ 1 _ (rigid_skin_vertices 3) (by simp))
    (by simp [reported_triangles, face_triangles, triangle_mesh, flat_mesh, triangulated,
      fan_triangulate])
  obtain ⟨h1, _, h3⟩ :=
    bones_follow_clusters fan_triangulate (triangle_mesh ⟨1, 0, 0⟩) (rigid_skin 3) _ hm
  exact ⟨_, hm, h1, h3 0 (cluster_on 0) rfl, h3 1 (cluster_on 1) rfl⟩

/-- The amended C7 at a mesh of a two-corner face, for which the fan
triangulation reports no triangle, followed by a triangle: a mesh is returned,
with the three vertices of the triangle. -/
theorem zero_triangle_face_is_skipped_witness :
    ∃ m out, process_skinned_mesh fan_triangulate (malformed_face_mesh ⟨1, 0, 0⟩)
        (rigid_skin 5) = Except.ok m ∧
      flattened fan_triangulate (malformed_face_mesh ⟨1, 0, 0⟩) (rigid_skin 5) 2 =
        Except.ok out ∧
      m.vertices = out ∧ m.num_vertices = out.length ∧
      flattened fan_triangulate (malformed_face_mesh ⟨1, 0, 0⟩) (rigid_skin 5) 1 =
        flattened fan_triangulate (malformed_face_mesh ⟨1, 0, 0⟩) (rigid_skin 5) 0 := by
  obtain ⟨m, out, hm, ho, hv, hn, hskip⟩ :=
    zero_triangle_face_is_skipped fan_triangulate (malformed_face_mesh ⟨1, 0, 0⟩)
      (rigid_skin 5) (Nat.le_refl _)
      (corners_ready_flat _ 5 _ 1 _ (rigid_skin_vertices 5) (by simp [malformed_face_mesh]))
      (by simp [reported_triangles, Finset.sum_range_succ, face_triangles, malformed_face_mesh,
        flat_mesh, triangulated, fan_triangulate])
  exact ⟨m, out, hm, ho, hv, hn, hskip 0 (by simp [malformed_face_mesh, flat_mesh])
    (by simp [face_triangles, malformed_face_mesh, flat_mesh, triangulated, fan_triangulate])⟩

/-- C7 as stated fails: face 0 of `malformed_face_mesh` has two corners and
triangulation reports 0 triangles for it, yet `process_skinned_mesh` returns a
mesh, with the 3 vertices of the other face. -/
theorem zero_triangle_face_counterexample :
    face_triangles fan_triangulate (malformed_face_mesh ⟨1, 0, 0⟩) 0 = 0 ∧
    ∃ m, process_skinned_mesh fan_triangulate (malformed_face_mesh ⟨1, 0, 0⟩)
        (rigid_skin 5) = Except.ok m ∧ m.num_vertices = 3 ∧ m.vertices.length = 3 := by
  refine ⟨by simp [face_triangles, malformed_face_mesh, flat_mesh, triangulated,
    fan_triangulate], ?_⟩
  obtain ⟨out, _, hm⟩ := process_skinned_mesh_returns fan_triangulate
    (malformed_face_mesh ⟨1, 0, 0⟩) (rigid_skin 5) (Nat.le_refl _)
    (corners_ready_flat _ 5 _ 1 _ (rigid_skin_vertices 5) (by simp [malformed_face_mesh]))
    (by simp [reported_triangles, Finset.sum_range_succ, face_triangles, malformed_face_mesh,
      flat_mesh, triangulated, fan_triangulate])
  obtain ⟨h1, h2, _⟩ := process_skinned_mesh_counts _ _ _ _ hm
  refine ⟨_, hm, ?_, ?_⟩
  · simpa [malformed_face_mesh, flat_mesh] using h1
  · rw [h2]
    simpa [malformed_face_mesh, flat_mesh] using h1

theorem zero_sum_skin_vertices :
    ∀ index, index < 3 → ∃ sv, zero_sum_skin.vertices[index]? = some sv ∧
      sv.weight_begin + taken sv.num_weights ≤ zero_sum_skin.weights.length := by
  intro index hi
  interval_cases index
  · exact ⟨⟨0, 2⟩, rfl, by decide⟩
  · exact ⟨⟨2, 1⟩, rfl, by decide⟩
  · exact ⟨⟨3, 1⟩, rfl, by decide⟩

/-- The first vertex of the flattened one-triangle mesh is the vertex of corner 0. -/
theorem flattened_triangle_head (p : ufbx_vec3 ℚ) (skin : ufbx_skin_deformer)
    (out : List Vertex)
    (h : flattened fan_triangulate (triangle_mesh p) skin 1 = Except.ok out) :
    ∃ v, out[0]? = some v ∧ get_skinned_vertex (triangle_mesh p) skin 0 = Except.ok v := by
  have hf : rd (triangle_mesh p).faces 0 = Except.ok ⟨0, 3⟩ := rfl
  have ht : triangulated fan_triangulate (triangle_mesh p) ⟨0, 3⟩ = ⟨1, [0, 1, 2]⟩ := rfl
  have h3 : (1 : Nat) * 3 = 0 + 1 + 1 + 1 := rfl
  simp only [flattened, hf, ok_bind, ht, h3, corner_vertices, bind_eq_ok, Except.ok.injEq] at h
  obtain ⟨o, ⟨o2, ⟨o1, ⟨i0, hi0, v0, hv0, ho1⟩, i1, _, v1, _, ho2⟩, i2, _, v2, _, ho⟩, hout⟩ := h
  have hi : i0 = 0 := by
    have := rd_ok_iff.1 hi0
    simpa using this.symm
  subst hi
  refine ⟨v0, ?_, hv0⟩
  rw [← hout, ← ho, ← ho2, ← ho1]
  rfl

/-- C6 as stated fails: the raw vertex 0 of `zero_sum_skin` has two influences,
whose weights sum to zero; `get_skinned_vertex` returns a vertex all the same,
with non-finite weights from the division by that sum, and `process_skinned_mesh`
returns a mesh with this vertex. -/
theorem zero_sum_counterexample :
    zero_sum_skin.vertices[0]? = some ⟨0, 2⟩ ∧
    taken_total (fun i => stored zero_sum_skin (0 + i)) (min 2 MAX_WEIGHTS) = 0 ∧
    ∃ m v, process_skinned_mesh fan_triangulate (triangle_mesh ⟨1, 0, 0⟩) zero_sum_skin =
        Except.ok m ∧
      get_skinned_vertex (triangle_mesh ⟨1, 0, 0⟩) zero_sum_skin 0 = Except.ok v ∧
      m.vertices[0]? = some v ∧ v.weights 0 = Flt.nonfinite ∧ v.weights 1 = Flt.nonfinite := by
  have ht : taken_total (fun i => stored zero_sum_skin (0 + i)) (min 2 MAX_WEIGHTS) = 0 := by
    simp [taken_total, stored, zero_sum_skin]
  refine ⟨rfl, ht, ?_⟩
  obtain ⟨out, ho, hm⟩ := process_skinned_mesh_returns fan_triangulate
    (triangle_mesh ⟨1, 0, 0⟩) zero_sum_skin (Nat.le_refl _)
    (corners_ready_flat _ 3 _ 1 _ zero_sum_skin_vertices (by simp))
    (by simp [reported_triangles, face_triangles, triangle_mesh, flat_mesh, triangulated,
      fan_triangulate])
  obtain ⟨v, hv0, hv⟩ := flattened_triangle_head ⟨1, 0, 0⟩ zero_sum_skin out ho
  have hspec := get_skinned_vertex_at _ _ _ _ _ _ _ _
    (corner_zero ⟨1, 0, 0⟩ zero_sum_skin ⟨0, 2⟩ rfl (by decide))
  have hveq := Except.ok.inj (hv.symm.trans hspec)
  have ht2 : taken_total (fun i => stored zero_sum_skin i) (min 2 MAX_WEIGHTS) = 0 := by
    simpa using ht
  refine ⟨_, v, hm, hv, hv0, ?_, ?_⟩
  · rw [hveq]
    simp [skinned_spec, ht2, taken]
  · rw [hveq]
    simp [skinned_spec, ht2, taken]

/-! ## The animation clock -/

/-- The clock after `n` ticks, while the loop point is not passed. -/
theorem clock_after_eq (n : Nat) (hn : n ≤ 62) : clock_after 1 n = 16 * (n : ℚ) / 1000 := by
  induction n with
  | zero => simp [clock_after]
  | succ k ih =>
    have hk : (k : ℚ) + 1 ≤ 62 := by exact_mod_cast hn
    have hnot : ¬ (16 * (k : ℚ) / 1000 + 16 / 1000 > 1) := by
      rw [gt_iff_lt, not_lt]
      linarith
    simp only [clock_after, timer, timer_step, TIMER_MS, ih (Nat.le_of_succ_le hn), if_neg hnot]
    push_cast
    ring

/-- C5: the clock step maps the previous time `t`, a tick of duration
`d = tick_ms / 1000` and the clip end `e` to 0 when `t + d > e` and to `t + d`
otherwise, so that `t + d = e` does not reset; the tick of `timer` is 16 ms.
Started at 0 with the clip ending at 1000 ms, the time after tick `n` is `16 n`
ms for `n` from 1 to 62, and after tick 63 it is exactly 0. -/
theorem clock_hard_reset :
    (∀ tick_ms t e : ℚ,
      (t + tick_ms / 1000 > e → timer_step tick_ms t e = 0) ∧
      (¬ (t + tick_ms / 1000 > e) → timer_step tick_ms t e = t + tick_ms / 1000) ∧
      (t + tick_ms / 1000 = e → timer_step tick_ms t e = e)) ∧
    (∀ t e : ℚ, timer t e = timer_step 16 t e) ∧
    (∀ n : Nat, 1 ≤ n → n ≤ 62 → clock_after 1 n = 16 * (n : ℚ) / 1000) ∧
    clock_after 1 62 + 16 / 1000 = 1008 / 1000 ∧
    clock_after 1 63 = 0 := by
  refine ⟨?_, fun _ _ => rfl, fun n _ hn => clock_after_eq n hn, ?_, ?_⟩
  · intro tick_ms t e
    refine ⟨?_, ?_, ?_⟩
    · intro h
      simp [timer_step, h]
    · intro h
      simp only [timer_step, if_neg h]
    · intro h
      simp [timer_step, h]
  · rw [clock_after_eq 62 (Nat.le_refl _)]
    norm_num
  · have h62 := clock_after_eq 62 (Nat.le_refl _)
    show timer (clock_after 1 62) 1 = 0
    rw [h62]
    simp only [timer, timer_step, TIMER_MS]
    norm_num

/-! ## Bone indices -/

/-- The bone slots of a vertex that `get_skinned_vertex` returns are below the
cluster count, when the skin has a cluster and stores cluster indices below it. -/
theorem get_skinned_vertex_bones_lt (mesh : ufbx_mesh) (skin : ufbx_skin_deformer)
    (hclusters : 0 < skin.clusters.length)
    (hidx : ∀ sw, sw ∈ skin.weights → sw.cluster_index < skin.clusters.length)
    (index : Nat) (v : Vertex) (h : get_skinned_vertex mesh skin index = Except.ok v) :
    ∀ i, v.bones i < skin.clusters.length := by
  obtain ⟨position, normal, texCoord, sv, hc, hv⟩ := get_skinned_vertex_ok mesh skin index v h
  subst hv
  intro i
  simp only [skinned_spec]
  split
  · next hi => exact hidx _ (List.getElem?_mem (hc.influences i.val hi))
  · exact hclusters

/-- The mesh `process_skinned_mesh` returns can be drawn in a scene that has
the nodes of the clusters, when the skin has a cluster and stores cluster
indices below the cluster count. -/
theorem draw_ready_of_process (tri : Triangulator) (mesh : ufbx_mesh)
    (skin : ufbx_skin_deformer) (m : Mesh) (scene : ufbx_scene)
    (hm : process_skinned_mesh tri mesh skin = Except.ok m)
    (hclusters : 0 < skin.clusters.length)
    (hidx : ∀ sw, sw ∈ skin.weights → sw.cluster_index < skin.clusters.length)
    (hnodes : ∀ c, c ∈ skin.clusters → c.bone_node.typed_id < scene.nodes.length) :
    DrawReady m scene := by
  obtain ⟨out, ho, _, hmeq⟩ := (process_skinned_mesh_ok_iff tri mesh skin m).1 hm
  subst hmeq
  refine ⟨by simp, ?_, Nat.le_refl _, ?_⟩
  · intro b hb
    have hb2 := List.mem_of_mem_take hb
    obtain ⟨c, hc, hbc⟩ := List.mem_map.1 hb2
    rw [← hbc]
    exact hnodes c hc
  · intro v hv
    exact flattened_forall (fun v => ∀ i, v.bones i < skin.clusters.length) tri mesh skin
      (get_skinned_vertex_bones_lt mesh skin hclusters hidx) _ out ho v (List.mem_of_mem_take hv)

/-- C10 (amended): for every mesh that `process_skinned_mesh` returns from a
skin deformer with at least one cluster in which every stored influence has a
cluster index below the cluster count, all four bone slots of every vertex,
the unused slots of weight 0 and bone 0 included, are below `num_bones`; bone
`i` carries the node of cluster `i`; and in a scene that has the nodes of the
clusters every array access of `draw_mesh` is in range and `draw_mesh` returns. -/
theorem bone_lookups_in_bounds (tri : Triangulator) (mesh : ufbx_mesh)
    (skin : ufbx_skin_deformer) (m : Mesh) (scene : ufbx_scene)
    (hm : process_skinned_mesh tri mesh skin = Except.ok m)
    (hclusters : 0 < skin.clusters.length)
    (hidx : ∀ sw, sw ∈ skin.weights → sw.cluster_index < skin.clusters.length) :
    (∀ v, v ∈ m.vertices → ∀ i, v.bones i < m.num_bones) ∧
    (∀ (i : Nat) (b : Bone), m.bones[i]? = some b →
      ∃ c : ufbx_skin_cluster, skin.clusters[i]? = some c ∧
        b.node_index = c.bone_node.typed_id) ∧
    ((∀ c, c ∈ skin.clusters → c.bone_node.typed_id < scene.nodes.length) →
      DrawReady m scene ∧ ∃ out, draw_mesh m scene = Except.ok out) := by
  obtain ⟨out, ho, _, hmeq⟩ := (process_skinned_mesh_ok_iff tri mesh skin m).1 hm
  refine ⟨?_, ?_, ?_⟩
  · subst hmeq
    intro v hv
    exact flattened_forall (fun v => ∀ i, v.bones i < skin.clusters.length) tri mesh skin
      (get_skinned_vertex_bones_lt mesh skin hclusters hidx) _ out ho v hv
  · subst hmeq
    intro i b hb
    simp only [List.getElem?_map, Option.map_eq_some'] at hb
    obtain ⟨c, hc, hbc⟩ := hb
    exact ⟨c, hc, by rw [← hbc]; rfl⟩
  · intro hnodes
    have hr := draw_ready_of_process tri mesh skin m scene hm hclusters hidx hnodes
    exact ⟨hr, _, draw_mesh_eq m scene hr⟩

/-- The amended C10 at the one-triangle mesh with a skin of two clusters, in a
scene of two nodes: the three vertices of the mesh have bone slots below 2 and
`draw_mesh` returns. -/
theorem bone_lookups_in_bounds_witness :
    ∃ m, process_skinned_mesh fan_triangulate (triangle_mesh ⟨1, 0, 0⟩) (rigid_skin 3) =
        Except.ok m ∧
      (∀ v, v ∈ m.vertices → ∀ i, v.bones i < 2) ∧
      ∃ out, draw_mesh m shifted_scene = Except.ok out := by
  obtain ⟨out, _, hm⟩ := process_skinned_mesh_returns fan_triangulate
    (triangle_mesh ⟨1, 0, 0⟩) (rigid_skin 3) (Nat.le_refl _)
    (corners_ready_flat _ 3 _ 1 _ (rigid_skin_vertices 3) (by simp))
    (by simp [reported_triangles, face_triangles, triangle_mesh, flat_mesh, triangulated,
      fan_triangulate])
  obtain ⟨h1, _, h3⟩ := bone_lookups_in_bounds fan_triangulate (triangle_mesh ⟨1, 0, 0⟩)
    (rigid_skin 3) _ shifted_scene hm (by decide)
    (by simp [rigid_skin])
  exact ⟨_, hm, h1, (h3 (by simp [rigid_skin, cluster_on, node_at, shifted_scene])).2⟩

theorem bare_skin_vertices :
    ∀ index, index < 3 → ∃ sv, bare_skin.vertices[index]? = some sv ∧
      sv.weight_begin + taken sv.num_weights ≤ bare_skin.weights.length := by
  intro index hi
  interval_cases index <;> exact ⟨⟨0, 0⟩, rfl, by decide⟩

/-- A drawing pass faults when slot 0 of its first vertex names a bone that the
table `geometry_to_world` does not have. -/
theorem draw_mesh_faults (m : Mesh) (scene : ufbx_scene) (v : Vertex) (n : Nat)
    (hb : m.num_bones = 0) (hn : m.num_vertices = n + 1) (hv : m.vertices[0]? = some v) :
    draw_mesh m scene = Except.error Fault.out_of_bounds := by
  have hbody : vertex_body m [] 0 [] = Except.error Fault.out_of_bounds := by
    have h4 : MAX_WEIGHTS = 0 + 1 + 1 + 1 + 1 := rfl
    simp only [vertex_body, rd_eq_ok hv, ok_bind, h4, forLoop_succ, forLoop_zero, blend_body, rd4,
      show (0 : Nat) < 0 + 1 + 1 + 1 + 1 from by decide, dif_pos]
    simp [rd, error_bind]
  have hloop : ∀ k, forLoop (k + 1) (vertex_body m []) [] = Except.error Fault.out_of_bounds := by
    intro k
    induction k with
    | zero => rw [forLoop_succ, forLoop_zero, ok_bind, hbody]
    | succ j ih => rw [forLoop_succ, ih, error_bind]
  unfold draw_mesh
  simp only [hb, hn, forLoop_zero, ok_bind, List.replicate_zero]
  exact hloop n

/-- C10 as stated fails: `bare_skin` has no cluster and stores no influence, so
every stored cluster index is below the cluster count; `process_skinned_mesh`
returns a mesh of no bone whose first vertex has weight 0 and bone 0 in slot 0,
which is not below `num_bones = 0`, and `draw_mesh` reads outside the empty
table `geometry_to_world` in every scene. -/
theorem bone_lookups_counterexample :
    (∀ sw, sw ∈ bare_skin.weights → sw.cluster_index < bare_skin.clusters.length) ∧
    ∃ m v, process_skinned_mesh fan_triangulate (triangle_mesh ⟨1, 0, 0⟩) bare_skin =
        Except.ok m ∧
      m.num_bones = 0 ∧ m.vertices[0]? = some v ∧ v.weights 0 = 0 ∧ v.bones 0 = 0 ∧
      ¬ (v.bones 0 < m.num_bones) ∧
      ∀ scene, draw_mesh m scene = Except.error Fault.out_of_bounds := by
  refine ⟨by simp [bare_skin], ?_⟩
  obtain ⟨out, ho, hm⟩ := process_skinned_mesh_returns fan_triangulate
    (triangle_mesh ⟨1, 0, 0⟩) bare_skin (Nat.le_refl _)
    (corners_ready_flat _ 3 _ 1 _ bare_skin_vertices (by simp))
    (by simp [reported_triangles, face_triangles, triangle_mesh, flat_mesh, triangulated,
      fan_triangulate])
  obtain ⟨v, hv0, hv⟩ := flattened_triangle_head ⟨1, 0, 0⟩ bare_skin out ho
  have hspec := get_skinned_vertex_at _ _ _ _ _ _ _ _
    (corner_zero ⟨1, 0, 0⟩ bare_skin ⟨0, 0⟩ rfl (by decide))
  have hveq := Except.ok.inj (hv.symm.trans hspec)
  have hlen : out.length = 2 + 1 := by
    have := (process_skinned_mesh_counts _ _ _ _ hm).1
    simpa [triangle_mesh, flat_mesh] using this
  have hw : v.weights 0 = 0 := by
    rw [hveq]
    simp [skinned_spec, taken]
  have hb : v.bones 0 = 0 := by
    rw [hveq]
    simp [skinned_spec, taken]
  refine ⟨_, v, hm, rfl, hv0, hw, hb, ?_, ?_⟩
  · simp [bare_skin]
  · intro scene
    exact draw_mesh_faults _ scene v 2 rfl hlen hv0

/-! ## Theorems about `draw_mesh` -/

/-- The matrix of a slot of weight 0 does not enter the blended transform. -/
theorem blend_congr_zero (S S2 : Slots (ufbx_matrix ℚ)) (w : Slots Flt)
    (h : ∀ i, w i ≠ 0 → S2 i = S i) : blend S2 w = blend S w := by
  unfold blend
  congr 1
  funext k
  apply Finset.sum_congr rfl
  intro i _
  by_cases hw : w i = 0
  · rw [hw]
    simp [Flt.zero_def]
  · rw [h i hw]

/-- What `draw_mesh` emits for the vertex `ix`. -/
theorem draw_mesh_at (mesh : Mesh) (scene : ufbx_scene) (hr : DrawReady mesh scene) :
    ∃ out, draw_mesh mesh scene = Except.ok out ∧ out.length = mesh.num_vertices ∧
      ∀ (ix : Nat) (v : Vertex), ix < mesh.num_vertices → mesh.vertices[ix]? = some v →
        out[ix]? = some (emitted_spec mesh scene v) := by
  refine ⟨_, draw_mesh_eq mesh scene hr, ?_, ?_⟩
  · simp only [List.length_map, List.length_take]
    exact Nat.min_eq_left hr.vertices_le
  · intro ix v hix hv
    rw [List.getElem?_map, List.getElem?_take_of_lt hix, hv]
    rfl

/-- The skinning matrix of a bone slot of a vertex that is drawn. -/
theorem skinning_matrix_of_slot (mesh : Mesh) (scene : ufbx_scene) (hr : DrawReady mesh scene)
    (ix : Nat) (v : Vertex) (hix : ix < mesh.num_vertices) (hv : mesh.vertices[ix]? = some v)
    (i : Fin MAX_WEIGHTS) :
    ∃ bone node, mesh.bones[v.bones i]? = some bone ∧
      scene.nodes[bone.node_index]? = some node ∧
      skinning_matrix mesh scene (v.bones i) =
        ufbx_matrix_mul node.node_to_world bone.geometry_to_bone := by
  have hs := hr.slots_lt v (mem_take_of_getElem? hix hv) i
  have hbl : v.bones i < mesh.bones.length := Nat.lt_of_lt_of_le hs hr.bones_le
  have hb : mesh.bones[v.bones i]? = some mesh.bones[v.bones i] := List.getElem?_eq_getElem hbl
  have hnode := hr.nodes_lt _ (mem_take_of_getElem? hs hb)
  have hnd := List.getElem?_eq_getElem hnode
  exact ⟨_, _, hb, hnd, by simp [skinning_matrix, hb, hnd]⟩

/-- The two-bone scenario: a translation by (10, 0, 0) and the identity, each
of weight 1/2, move the origin to (5, 0, 0). -/
theorem blend_half_translation (S : Slots (ufbx_matrix ℚ)) (w : Slots Flt)
    (hA : S 0 = translation_matrix 10 0 0) (hB : S 1 = ufbx_identity_matrix)
    (h0 : w 0 = Flt.fin (1 / 2)) (h1 : w 1 = Flt.fin (1 / 2)) (h2 : w 2 = 0) (h3 : w 3 = 0) :
    ufbx_transform_position (blend S w) ⟨0, 0, 0⟩ = ⟨Flt.fin 5, Flt.fin 0, Flt.fin 0⟩ := by
  simp only [ufbx_transform_position, blend, ufbx_matrix.ofFn, Fin.sum_univ_four, hA, hB, h0, h1,
    h2, h3, translation_matrix, ufbx_identity_matrix, ufbx_matrix.v, Flt.zero_def,
    Flt.fin_mul_fin, Flt.fin_add_fin]
  norm_num

/-- C3: for every mesh and scene in which the array accesses of `draw_mesh` are
in range (all four bone slots of every vertex are valid), `draw_mesh` emits for
every vertex `v` the point transform of `v.position` and the direction
transform of `v.normal` by `T_v`, the entry-wise sum over the four slots of the
slot's weight times the skinning matrix of the slot's bone, which is
`node_to_world` of the bone's node composed with the bone's `geometry_to_bone`;
the matrix of a slot of weight 0 does not enter `T_v`. When the skinning
matrices of the first two slots are the translation by (10, 0, 0) and the
identity, the weights are (1/2, 1/2, 0, 0) and the bind position is the
origin, the emitted position is (5, 0, 0). -/
theorem draw_mesh_blends (mesh : Mesh) (scene : ufbx_scene) (hr : DrawReady mesh scene) :
    ∃ out, draw_mesh mesh scene = Except.ok out ∧ out.length = mesh.num_vertices ∧
      ∀ (ix : Nat) (v : Vertex), ix < mesh.num_vertices → mesh.vertices[ix]? = some v →
        (∀ i, ∃ bone node, mesh.bones[v.bones i]? = some bone ∧
          scene.nodes[bone.node_index]? = some node ∧
          skinning_matrix mesh scene (v.bones i) =
            ufbx_matrix_mul node.node_to_world bone.geometry_to_bone) ∧
        (∀ S2 : Slots (ufbx_matrix ℚ),
          (∀ i, v.weights i ≠ 0 → S2 i = skinning_matrix mesh scene (v.bones i)) →
          blend S2 v.weights = vertex_transform mesh scene v) ∧
        ∃ e : Emitted, out[ix]? = some e ∧
          e.position = ufbx_transform_position (vertex_transform mesh scene v) v.position ∧
          e.normal = ufbx_transform_direction (vertex_transform mesh scene v) v.normal ∧
          e.texCoord = v.texCoord ∧
          (skinning_matrix mesh scene (v.bones 0) = translation_matrix 10 0 0 →
            skinning_matrix mesh scene (v.bones 1) = ufbx_identity_matrix →
            v.weights 0 = Flt.fin (1 / 2) → v.weights 1 = Flt.fin (1 / 2) →
            v.weights 2 = 0 → v.weights 3 = 0 → v.position = ⟨0, 0, 0⟩ →
            e.position = ⟨Flt.fin 5, Flt.fin 0, Flt.fin 0⟩) := by
  obtain ⟨out, ho, hlen, hat⟩ := draw_mesh_at mesh scene hr
  refine ⟨out, ho, hlen, ?_⟩
  intro ix v hix hv
  refine ⟨skinning_matrix_of_slot mesh scene hr ix v hix hv, ?_, ?_⟩
  · intro S2 h
    exact blend_congr_zero _ S2 v.weights h
  · refine ⟨_, hat ix v hix hv, rfl, rfl, rfl, ?_⟩
    intro hA hB h0 h1 h2 h3 hp
    simp only [emitted_spec, vertex_transform, hp]
    exact blend_half_translation _ _ hA hB h0 h1 h2 h3

theorem two_bone_ready : DrawReady two_bone_mesh shifted_scene := by
  refine ⟨by decide, ?_, by decide, ?_⟩
  · intro b hb
    simp [two_bone_mesh] at hb
    rcases hb with hb | hb <;> subst hb <;> decide
  · intro v hv i
    simp [two_bone_mesh] at hv
    subst hv
    fin_cases i <;> decide

theorem two_bone_skinning :
    skinning_matrix two_bone_mesh shifted_scene 0 = translation_matrix 10 0 0 ∧
    skinning_matrix two_bone_mesh shifted_scene 1 = ufbx_identity_matrix := by
  constructor <;>
    simp [skinning_matrix, two_bone_mesh, shifted_scene, bone_of_cluster, cluster_on, node_at,
      ufbx_matrix_mul, translation_matrix, ufbx_identity_matrix]

/-- C3 at a mesh of one vertex at the origin with the weights (1/2, 1/2) on two
bones, in a scene where the first bone is translated by (10, 0, 0) and the
second is at rest: the position emitted is (5, 0, 0). -/
theorem draw_mesh_blends_witness :
    ∃ out e, draw_mesh two_bone_mesh shifted_scene = Except.ok out ∧ out.length = 1 ∧
      out[0]? = some e ∧ e.position = ⟨Flt.fin 5, Flt.fin 0, Flt.fin 0⟩ := by
  obtain ⟨out, ho, hlen, hall⟩ := draw_mesh_blends two_bone_mesh shifted_scene two_bone_ready
  obtain ⟨_, _, e, he, _, _, _, hfive⟩ := hall 0 half_vertex (by decide) rfl
  exact ⟨out, e, ho, hlen, he,
    hfive two_bone_skinning.1 two_bone_skinning.2 rfl rfl rfl rfl rfl⟩

/-- Weights with a finite sum are finite. -/
theorem weights_finite_of_sum (w : Slots Flt) (t : ℚ)
    (h : w 0 + w 1 + w 2 + w 3 = Flt.fin t) :
    ∃ q0 q1 q2 q3 : ℚ, w 0 = Flt.fin q0 ∧ w 1 = Flt.fin q1 ∧ w 2 = Flt.fin q2 ∧
      w 3 = Flt.fin q3 ∧ q0 + q1 + q2 + q3 = t := by
  obtain ⟨x, q3, hx, h3, hs3⟩ := Flt.add_eq_fin h
  obtain ⟨y, q2, hy, h2, hs2⟩ := Flt.add_eq_fin hx
  obtain ⟨q0, q1, h0, h1, hs1⟩ := Flt.add_eq_fin hy
  exact ⟨q0, q1, q2, q3, h0, h1, h2, h3, by rw [hs1, hs2, hs3]⟩

/-- Identity skinning matrices blended with weights that sum to 1 keep a point. -/
theorem blend_identity_position (S : Slots (ufbx_matrix ℚ)) (w : Slots Flt) (p : ufbx_vec3 ℚ)
    (hS : ∀ i, S i = ufbx_identity_matrix) (hw : w 0 + w 1 + w 2 + w 3 = Flt.fin 1) :
    ufbx_transform_position (blend S w) p = p.toFlt := by
  obtain ⟨q0, q1, q2, q3, h0, h1, h2, h3, hq⟩ := weights_finite_of_sum w 1 hw
  simp only [ufbx_transform_position, blend, ufbx_matrix.ofFn, Fin.sum_univ_four, hS, h0, h1, h2,
    h3, ufbx_identity_matrix, ufbx_matrix.v, Flt.fin_mul_fin, Flt.fin_add_fin, ufbx_vec3.toFlt,
    ufbx_vec3.mk.injEq, Flt.fin.injEq]
  refine ⟨?_, ?_, ?_⟩
  · linear_combination p.x * hq
  · linear_combination p.y * hq
  · linear_combination p.z * hq

/-- C4 (amended): for every mesh and scene in which the array accesses of
`draw_mesh` are in range and each bone's `node_to_world` composed with its
`geometry_to_bone` is the identity, the position `draw_mesh` emits for a vertex
whose four weights sum to 1 is the vertex's stored bind-space position; so is
the position emitted for a vertex with the single influence of weight 1. -/
theorem bind_pose_keeps_positions (mesh : Mesh) (scene : ufbx_scene)
    (hr : DrawReady mesh scene)
    (hbind : ∀ (i : Nat) (bone : Bone) (node : ufbx_node), i < mesh.num_bones →
      mesh.bones[i]? = some bone → scene.nodes[bone.node_index]? = some node →
      ufbx_matrix_mul node.node_to_world bone.geometry_to_bone = ufbx_identity_matrix) :
    ∃ out, draw_mesh mesh scene = Except.ok out ∧ out.length = mesh.num_vertices ∧
      ∀ (ix : Nat) (v : Vertex), ix < mesh.num_vertices → mesh.vertices[ix]? = some v →
        ∃ e : Emitted, out[ix]? = some e ∧
          (populated_sum v MAX_WEIGHTS = Flt.fin 1 → e.position = v.position.toFlt) ∧
          (v.weights 0 = 1 → v.weights 1 = 0 → v.weights 2 = 0 → v.weights 3 = 0 →
            e.position = v.position.toFlt) := by
  obtain ⟨out, ho, hlen, hat⟩ := draw_mesh_at mesh scene hr
  refine ⟨out, ho, hlen, ?_⟩
  intro ix v hix hv
  have hS : ∀ i, skinning_matrix mesh scene (v.bones i) = ufbx_identity_matrix := by
    intro i
    obtain ⟨bone, node, hb, hn, hsk⟩ := skinning_matrix_of_slot mesh scene hr ix v hix hv i
    rw [hsk]
    exact hbind _ bone node (hr.slots_lt v (mem_take_of_getElem? hix hv) i) hb hn
  refine ⟨_, hat ix v hix hv, ?_, ?_⟩
  · intro hsum
    rw [populated_sum_eq] at hsum
    simp only [show (0 : Nat) < MAX_WEIGHTS from by decide,
      show (1 : Nat) < MAX_WEIGHTS from by decide, show (2 : Nat) < MAX_WEIGHTS from by decide,
      show (3 : Nat) < MAX_WEIGHTS from by decide, if_true] at hsum
    exact blend_identity_position _ _ _ hS hsum
  · intro h0 h1 h2 h3
    apply blend_identity_position _ _ _ hS
    rw [h0, h1, h2, h3]
    simp [Flt.one_def, Flt.zero_def]

theorem one_bone_ready (vs : List Vertex) (h : ∀ v, v ∈ vs → ∀ i, v.bones i = 0) :
    DrawReady (one_bone_mesh vs) rest_scene := by
  refine ⟨Nat.le_refl 1, ?_, Nat.le_refl _, ?_⟩
  · intro b hb
    simp [one_bone_mesh] at hb
    subst hb
    decide
  · intro v hv i
    have := h v (List.mem_of_mem_take hv) i
    simp [one_bone_mesh, this]

theorem one_bone_bind_pose (vs : List Vertex) :
    ∀ (i : Nat) (bone : Bone) (node : ufbx_node), i < (one_bone_mesh vs).num_bones →
      (one_bone_mesh vs).bones[i]? = some bone → rest_scene.nodes[bone.node_index]? = some node →
      ufbx_matrix_mul node.node_to_world bone.geometry_to_bone = ufbx_identity_matrix := by
  intro i bone node hi hb hn
  have h0 : i = 0 := by
    simp only [one_bone_mesh] at hi
    omega
  subst h0
  simp only [one_bone_mesh, List.getElem?_cons_zero, Option.some.injEq] at hb
  subst hb
  simp only [bone_of_cluster, cluster_on, node_at, rest_scene, List.getElem?_cons_zero,
    Option.some.injEq] at hn
  subst hn
  simp [bone_of_cluster, cluster_on, node_at, ufbx_matrix_mul, ufbx_identity_matrix]

/-- The amended C4 at a mesh of one vertex at (1, 2, 3) with the single
influence of weight 1 on a bone in bind pose: the position emitted is (1, 2, 3). -/
theorem bind_pose_keeps_positions_witness :
    ∃ out e, draw_mesh (one_bone_mesh [rigid_vertex]) rest_scene = Except.ok out ∧
      out[0]? = some e ∧ e.position = ⟨Flt.fin 1, Flt.fin 2, Flt.fin 3⟩ := by
  obtain ⟨out, ho, _, hall⟩ := bind_pose_keeps_positions (one_bone_mesh [rigid_vertex]) rest_scene
    (one_bone_ready _ (by
      intro v hv i
      simp at hv
      subst hv
      fin_cases i <;> rfl))
    (one_bone_bind_pose _)
  obtain ⟨e, he, _, hone⟩ := hall 0 rigid_vertex (by decide) rfl
  exact ⟨out, e, ho, he, hone rfl rfl rfl rfl⟩

/-- C4 as stated fails: `get_skinned_vertex` builds the vertex `loose_vertex`,
at (1, 0, 0) with all weights 0, for a raw vertex without influence; in a mesh
whose only bone is in bind pose, `draw_mesh` emits the position (0, 0, 0) for
it, not (1, 0, 0). -/
theorem bind_pose_counterexample :
    get_skinned_vertex (triangle_mesh ⟨1, 0, 0⟩) uninfluenced_skin 0 = Except.ok loose_vertex ∧
    DrawReady (one_bone_mesh [loose_vertex]) rest_scene ∧
    (∀ (i : Nat) (bone : Bone) (node : ufbx_node), i < (one_bone_mesh [loose_vertex]).num_bones →
      (one_bone_mesh [loose_vertex]).bones[i]? = some bone →
      rest_scene.nodes[bone.node_index]? = some node →
      ufbx_matrix_mul node.node_to_world bone.geometry_to_bone = ufbx_identity_matrix) ∧
    ∃ e, draw_mesh (one_bone_mesh [loose_vertex]) rest_scene = Except.ok [e] ∧
      e.position = ⟨Flt.fin 0, Flt.fin 0, Flt.fin 0⟩ ∧ loose_vertex.position = ⟨1, 0, 0⟩ ∧
      e.position ≠ loose_vertex.position.toFlt := by
  have hr : DrawReady (one_bone_mesh [loose_vertex]) rest_scene :=
    one_bone_ready _ (by
      intro v hv i
      simp at hv
      subst hv
      rfl)
  refine ⟨?_, hr, one_bone_bind_pose _, ?_⟩
  · rw [get_skinned_vertex_at _ _ _ _ _ _ _ _
      (corner_zero ⟨1, 0, 0⟩ uninfluenced_skin ⟨0, 0⟩ rfl (by decide))]
    simp [skinned_spec, loose_vertex, Vertex.zero, taken]
  · have hpos : (emitted_spec (one_bone_mesh [loose_vertex]) rest_scene loose_vertex).position =
        ⟨Flt.fin 0, Flt.fin 0, Flt.fin 0⟩ := by
      simp only [emitted_spec, vertex_transform, ufbx_transform_position, blend, ufbx_matrix.ofFn,
        Fin.sum_univ_four, loose_vertex, Vertex.zero, Flt.zero_def, Flt.fin_mul_fin,
        Flt.fin_add_fin]
      norm_num
    refine ⟨_, ?_, hpos, rfl, ?_⟩
    · rw [draw_mesh_eq _ _ hr]
      rfl
    · rw [hpos]
      simp [loose_vertex, ufbx_vec3.toFlt]

end Zappy
